import Mathlib

/-!
Verification of the claude-workflow scaffolding tool.

The tool is sequential filesystem manipulation driven by a three-command
CLI (`init`, `new`, `update`).  We model the filesystem as a shallow state:
a set of existing directories plus a partial map from paths to file
contents (a file's content is its list of lines).  All paths are relative
to the resolved project root; the package resource store and the current
git branch are treated as external collaborators and passed in as
parameters, exactly as the source consults them.

Modelled source files:
  - claude_workflow/cli.py        (create_command, update_command)
  - claude_workflow/new_project.py (create_project_structure,
                                    copy_source_files, create_template_files, main)
-/

/-- A path relative to the project root, as a list of segments. -/
abbrev FPath := List String

/-- File content, as the list of lines produced by `readlines`. -/
abbrev Content := List String

/-- Filesystem state: the set of existing directories and the contents of
existing files.  Directories are kept as a duplicate-free list in creation
order; files are a partial map. -/
structure FS where
  dirs : List FPath
  files : FPath → Option Content

namespace FS

/-- Overwrite (or create) the file at `p` with content `c`, like `open(p, "w")`. -/
def write (s : FS) (p : FPath) (c : Content) : FS :=
  { s with files := fun q => if q = p then some c else s.files q }

/-- `FPath.exists()` for a file. -/
def fileExists (s : FS) (p : FPath) : Bool :=
  (s.files p).isSome

/-- `FPath.exists()` for a directory. -/
def dirExists (s : FS) (p : FPath) : Bool :=
  decide (p ∈ s.dirs)

/-- `FPath.mkdir(exist_ok=True)`: create one directory, tolerant of pre-existence. -/
def mkdir (s : FS) (p : FPath) : FS :=
  { s with dirs := if p ∈ s.dirs then s.dirs else s.dirs ++ [p] }

end FS

/-- The non-empty prefixes of a path, shortest first: the chain of
directories `os.makedirs` has to create. -/
def prefixesOf (p : FPath) : List FPath :=
  (List.range p.length).map (fun i => p.take (i + 1))

namespace FS

/-- `os.makedirs(p, exist_ok=True)`: create `p` and every missing ancestor. -/
def mkdirAll (s : FS) (p : FPath) : FS :=
  { s with dirs := (prefixesOf p).foldl (fun ds q => if q ∈ ds then ds else ds ++ [q]) s.dirs }

end FS

/-- Exception-carrying result: `.error` holds the state at the moment an
uncaught Python exception aborts the run. -/
abbrev FsResult := Except FS FS

/-- The state carried by a result, whether the run finished or aborted. -/
def exState : FsResult → FS
  | .ok s => s
  | .error s => s

/-- Model of `shutil.copy2(src, dst)`: raises `SameFileError` when the two
resolved paths coincide, raises `FileNotFoundError` when the source is
missing, otherwise writes the source's content to the destination. -/
def copy2 (src dst : FPath) (s : FS) : FsResult :=
  if src = dst then .error s
  else
    match s.files src with
    | none => .error s
    | some c => .ok (s.write dst c)

/-- The packaged-resource collaborator: template name to content, plus the
packaged `new_project.py` helper script shipped next to `cli.py`. -/
structure Pkg where
  tmpl : String → Option Content
  script : Content

/-! ### cli.py: create_command (`init`) -/

/-- Lines 67 of cli.py: templates distributed into `planning/templates`. -/
def feature_templates : List String := ["feature.md", "tasks.md", "to-do.md"]

/-- Lines 68-69 of cli.py: templates distributed into `docs`. -/
def general_templates : List String :=
  ["api-docs.md", "architecture.md", "codebase.md", "domain.md", "setup.md", "testing.md"]

/-- The variant-specific agent-instructions filename (both the template
name and the output filename, cli.py lines 42-47). -/
def agentName (use_amazonq : Bool) : String :=
  if use_amazonq then "AmazonQ.md" else "CLAUDE.md"

/-- Python `line.strip() == ""`: the line consists only of whitespace. -/
def isBlankLine (l : String) : Bool :=
  l.data.all Char.isWhitespace

/-- Lines 53-59 of cli.py: skip the first line (the H1 header) and any
blank lines immediately following it; keep the remainder. -/
def stripTitle (lines : Content) : Content :=
  match lines with
  | [] => []
  | _ :: rest => rest.dropWhile isBlankLine

/-- The unconditional `shutil.copy` loops of cli.py lines 71-79: copy each
named packaged template into `destDir`, overwriting whatever is there; a
missing packaged template raises (aborting the whole command). -/
def copyPkgList (tmpl : String → Option Content) (names : List String)
    (destDir : FPath) (s : FS) : FsResult :=
  match names with
  | [] => .ok s
  | n :: rest =>
    match tmpl n with
    | none => .error s
    | some c => copyPkgList tmpl rest destDir (s.write (destDir ++ [n]) c)

/-- cli.py `create_command`.  The FS is rooted at the resolved target
directory, whose existence check is outside the model; `confirm` is the
answer to the interactive non-git-repository prompt being `y`. -/
def create_command (pkg : Pkg) (use_amazonq confirm : Bool) (s : FS) : Nat × FS :=
  if ¬ s.dirExists [".git"] ∧ ¬ confirm then (1, s)
  else
    let s1 := (s.mkdirAll ["planning", "templates"]).mkdir ["docs"]
    match pkg.tmpl (agentName use_amazonq) with
    | none => (1, s1)
    | some lines =>
      let s2 := s1.write [agentName use_amazonq] (stripTitle lines)
      let s3 := s2.write ["planning", "new_project.py"] pkg.script
      match copyPkgList pkg.tmpl feature_templates ["planning", "templates"] s3 with
      | .error e => (1, e)
      | .ok s4 =>
        match copyPkgList pkg.tmpl general_templates ["docs"] s4 with
        | .error e => (1, e)
        | .ok s5 => (0, s5)

/-! ### cli.py: update_command (`update`) -/

/-- cli.py lines 119-131: the template-to-destination mapping, in
dictionary insertion order. -/
def template_mappings : List (String × FPath) :=
  [("feature.md", ["planning", "templates", "feature.md"]),
   ("tasks.md", ["planning", "templates", "tasks.md"]),
   ("to-do.md", ["planning", "templates", "to-do.md"]),
   ("api-docs.md", ["docs", "api-docs.md"]),
   ("architecture.md", ["docs", "architecture.md"]),
   ("codebase.md", ["docs", "codebase.md"]),
   ("domain.md", ["docs", "domain.md"]),
   ("setup.md", ["docs", "setup.md"]),
   ("testing.md", ["docs", "testing.md"])]

/-- cli.py lines 133-137: copy each template to its destination only when
the destination does not already exist; a copy whose packaged source is
missing raises. -/
def updateLoop (tmpl : String → Option Content) :
    List (String × FPath) → FS → FsResult
  | [], s => .ok s
  | (n, d) :: rest, s =>
    if s.fileExists d then updateLoop tmpl rest s
    else
      match tmpl n with
      | none => .error s
      | some c => updateLoop tmpl rest (s.write d c)

/-- cli.py `update_command`, run from the project root. -/
def update_command (pkg : Pkg) (s : FS) : Nat × FS :=
  if ¬ s.fileExists ["CLAUDE.md"] ∧ ¬ s.fileExists ["AmazonQ.md"] then (1, s)
  else
    let s1 := (s.mkdir ["docs"]).mkdirAll ["planning", "templates"]
    match updateLoop pkg.tmpl template_mappings s1 with
    | .error e => (1, e)
    | .ok s2 =>
      let s3 := s2.write ["planning", "new_project.py"] pkg.script
      match pkg.tmpl "MIGRATION_INSTRUCTIONS.md" with
      | none => (1, s3)
      | some c => (0, s3.write ["MIGRATION_INSTRUCTIONS.md"] c)

/-! ### new_project.py -/

/-- new_project.py line 64: the files copied from the source branch. -/
def files_to_copy : List String := ["domain.md", "codebase.md"]

/-- new_project.py lines 108-116: templates copied by `create_template_files`. -/
def new_project_templates : List String :=
  ["feature.md", "tasks.md", "to-do.md", "setup.md", "architecture.md",
   "api-docs.md", "testing.md"]

/-- Python `str.split("/")` on the character list of a string: an empty
string yields one empty segment, and separators at the ends yield empty
segments, exactly like `"a/b".split("/")`. -/
def splitChars : List Char → List (List Char)
  | [] => [[]]
  | c :: rest =>
    match splitChars rest with
    | [] => if c = '/' then [[], []] else [[c]]
    | h :: t => if c = '/' then [] :: h :: t else (c :: h) :: t

/-- Python `branch.split("/")`. -/
def splitSlash (s : String) : List String :=
  (splitChars s.data).map List.asString

/-- `FPath.name`: the final segment of a path. -/
def lastSeg (p : FPath) : String := p.getLastD ""

/-- One iteration of the first-time-setup loop (new_project.py lines
74-79): seed `sourceDir/f` from `planning/templates/f` when the template
exists and the source file does not. -/
def seedStep (sd pd : FPath) (f : String) (s : FS) : FsResult :=
  if s.fileExists (pd ++ ["templates", f]) && !(s.fileExists (sd ++ [f])) then
    copy2 (pd ++ ["templates", f]) (sd ++ [f]) s
  else .ok s

/-- The first-time-setup loop over `files_to_copy`. -/
def seedLoop (sd pd : FPath) : List String → FS → FsResult
  | [], s => .ok s
  | f :: rest, s =>
    match seedStep sd pd f s with
    | .error e => .error e
    | .ok s' => seedLoop sd pd rest s'

/-- One iteration of the main copy loop of `copy_source_files`
(new_project.py lines 81-100): skip when source and target resolve to the
same file; else copy the source file when it exists; else fall back to the
template in `planning/templates` when that exists; else warn. -/
def copyStep (sd td pd : FPath) (f : String) (s : FS) : FsResult :=
  if sd ++ [f] = td ++ [f] then .ok s
  else if s.fileExists (sd ++ [f]) then copy2 (sd ++ [f]) (td ++ [f]) s
  else if s.fileExists (pd ++ ["templates", f]) then
    copy2 (pd ++ ["templates", f]) (td ++ [f]) s
  else .ok s

/-- The main copy loop of `copy_source_files` over `files_to_copy`. -/
def copyLoop (sd td pd : FPath) : List String → FS → FsResult
  | [], s => .ok s
  | f :: rest, s =>
    match copyStep sd td pd f s with
    | .error e => .error e
    | .ok s' => copyLoop sd td pd rest s'

/-- new_project.py `copy_source_files`: optional first-time creation and
seeding of the source directory when it is missing and named `main`,
followed by the per-file copy loop. -/
def copy_source_files (sd td pd : FPath) (s : FS) : FsResult :=
  match (if ¬ s.dirExists sd ∧ lastSeg sd = "main" then
           seedLoop sd pd files_to_copy (s.mkdirAll sd)
         else .ok s) with
  | .error e => .error e
  | .ok s' => copyLoop sd td pd files_to_copy s'

/-- One iteration of `create_template_files` (new_project.py lines
118-127): copy the template only when the target does not exist and the
template does; warn when the template is missing. -/
def tmplStep (td pd : FPath) (f : String) (s : FS) : FsResult :=
  if !(s.fileExists (td ++ [f])) && s.fileExists (pd ++ ["templates", f]) then
    copy2 (pd ++ ["templates", f]) (td ++ [f]) s
  else .ok s

/-- The loop of `create_template_files` over `new_project_templates`. -/
def tmplLoop (td pd : FPath) : List String → FS → FsResult
  | [], s => .ok s
  | f :: rest, s =>
    match tmplStep td pd f s with
    | .error e => .error e
    | .ok s' => tmplLoop td pd rest s'

/-- The branch directory: `planning` joined with the `/`-separated
segments of the branch name (new_project.py lines 37-42). -/
def branchDir (branch : String) : FPath :=
  "planning" :: splitSlash branch

/-- new_project.py `main` followed by `create_project_structure`: the
whole `new` command, with the current branch (the external git query's
answer, empty when undeterminable) and the source branch as parameters. -/
def runNew (branch sourceBranch : String) (s : FS) : Nat × FS :=
  if branch = "" then (1, s)
  else if ¬ s.dirExists ["planning"] then (1, s)
  else
    let td := branchDir branch
    let sd := "planning" :: splitSlash sourceBranch
    let s1 := s.mkdirAll td
    match copy_source_files sd td ["planning"] s1 with
    | .error e => (1, e)
    | .ok s2 =>
      match tmplLoop td ["planning"] new_project_templates s2 with
      | .error e => (1, e)
      | .ok s3 => (0, s3)

/-! ### Concrete states and package stores used by witnesses and counterexamples -/

/-- A package store holding every template the repository ships. -/
def pkgDemo : Pkg where
  tmpl := fun n =>
    if n = "CLAUDE.md" then some ["# CLAUDE.md Title", "", "Body line 1", "Body line 2"]
    else if n = "AmazonQ.md" then some ["# AmazonQ Title", "AQ body"]
    else if n = "feature.md" then some ["# Feature Template"]
    else if n = "tasks.md" then some ["# Tasks Template"]
    else if n = "to-do.md" then some ["# To-Do Template"]
    else if n = "api-docs.md" then some ["# API Documentation"]
    else if n = "architecture.md" then some ["# Architecture"]
    else if n = "codebase.md" then some ["# Codebase"]
    else if n = "domain.md" then some ["# Domain"]
    else if n = "setup.md" then some ["# Setup"]
    else if n = "testing.md" then some ["# Testing"]
    else if n = "MIGRATION_INSTRUCTIONS.md" then some ["# Migration"]
    else none
  script := ["helper script v2"]

/-- A package store missing the `tasks.md` template. -/
def pkgNoTasks : Pkg where
  tmpl := fun n =>
    if n = "CLAUDE.md" then some ["# Title", "body"]
    else if n = "feature.md" then some ["# Feature Template"]
    else none
  script := ["helper script v2"]

/-- A fresh git repository with no files. -/
def fsFresh : FS where
  dirs := [[".git"]]
  files := fun _ => none

/-- The state after a first `init` run on the fresh repository. -/
def fsInit : FS := (create_command pkgDemo false true fsFresh).2

/-- The post-init state after the user edited `docs/api-docs.md`. -/
def fsEdited : FS := fsInit.write ["docs", "api-docs.md"] ["user notes"]

/-- An initialized project whose `planning/templates` holds `feature.md`
and `to-do.md` but is missing the `tasks.md` template. -/
def fsNoTasks : FS where
  dirs := [[".git"], ["planning"], ["planning", "templates"]]
  files := fun p =>
    if p = ["planning", "templates", "feature.md"] then some ["# Feature Template"]
    else if p = ["planning", "templates", "to-do.md"] then some ["# To-Do Template"]
    else none

/-- The post-init state with an extra `setup.md` template placed in
`planning/templates`. -/
def fsWithSetup : FS := fsInit.write ["planning", "templates", "setup.md"] ["# Setup tmpl"]

/-- A planning root whose templates hold `domain.md` and `feature.md`,
with no `planning/main` directory yet. -/
def fsSeed : FS where
  dirs := [["planning"], ["planning", "templates"]]
  files := fun p =>
    if p = ["planning", "templates", "domain.md"] then some ["# Domain tmpl"]
    else if p = ["planning", "templates", "feature.md"] then some ["# Feature Template"]
    else none

/-- Every path `init` ever writes a file to: the agent-instructions file,
the helper script, and the nine template destinations. -/
def initTargets (use_amazonq : Bool) : List FPath :=
  [[agentName use_amazonq], ["planning", "new_project.py"]]
    ++ feature_templates.map (fun n => ["planning", "templates", n])
    ++ general_templates.map (fun n => ["docs", n])

/-! ## Helper lemmas about the filesystem model -/

namespace FS

@[simp] theorem write_files (s : FS) (p : FPath) (c : Content) (q : FPath) :
    (s.write p c).files q = if q = p then some c else s.files q := rfl

@[simp] theorem write_dirs (s : FS) (p : FPath) (c : Content) :
    (s.write p c).dirs = s.dirs := rfl

@[simp] theorem mkdir_files (s : FS) (p : FPath) :
    (s.mkdir p).files = s.files := rfl

@[simp] theorem mkdirAll_files (s : FS) (p : FPath) :
    (s.mkdirAll p).files = s.files := rfl

theorem write_files_ne (s : FS) (p : FPath) (c : Content) (q : FPath) (h : q ≠ p) :
    (s.write p c).files q = s.files q := by simp [h]

/-- Rewriting a file with the content it already has does not change any lookup. -/
theorem write_self (s : FS) (p : FPath) (c : Content) (h : s.files p = some c) (q : FPath) :
    (s.write p c).files q = s.files q := by
  by_cases hq : q = p <;> simp [hq, h]

end FS

@[simp] theorem exState_ok (s : FS) : exState (.ok s) = s := rfl

@[simp] theorem exState_error (s : FS) : exState (.error s) = s := rfl

theorem copy2_ok {src dst : FPath} {s : FS} {c : Content}
    (hne : src ≠ dst) (hc : s.files src = some c) :
    copy2 src dst s = .ok (s.write dst c) := by
  simp [copy2, hne, hc]

/-- Paths that end in different final segments are different. -/
theorem append_last_ne {p q : FPath} {a b : String} (h : a ≠ b) :
    p ++ [a] ≠ q ++ [b] := by
  intro he
  exact h (by simpa using congrArg (fun l => l.getLast? ) he)

/-- The `init` template loops never touch a file whose path is none of the
written destinations, whether or not the loop aborts. -/
theorem copyPkgList_files (tmpl : String → Option Content) (names : List String)
    (d : FPath) (s : FS) (r : FsResult) (hr : copyPkgList tmpl names d s = r)
    (p : FPath) (h : ∀ n ∈ names, p ≠ d ++ [n]) :
    (exState r).files p = s.files p := by
  induction names generalizing s with
  | nil => cases hr; rfl
  | cons n rest ih =>
    simp only [copyPkgList] at hr
    cases htn : tmpl n with
    | none => rw [htn] at hr; cases hr; rfl
    | some c =>
      rw [htn] at hr
      rw [ih _ hr (fun m hm => h m (List.mem_cons_of_mem _ hm))]
      exact FS.write_files_ne _ _ _ _ (h n (List.mem_cons_self n rest))

/-- The `init` template loops do not change the directory set. -/
theorem copyPkgList_dirs (tmpl : String → Option Content) (names : List String)
    (d : FPath) (s : FS) (r : FsResult) (hr : copyPkgList tmpl names d s = r) :
    (exState r).dirs = s.dirs := by
  induction names generalizing s with
  | nil => cases hr; rfl
  | cons n rest ih =>
    simp only [copyPkgList] at hr
    cases htn : tmpl n with
    | none => rw [htn] at hr; cases hr; rfl
    | some c => rw [htn] at hr; rw [ih _ hr]; rfl

/-- Title stripping: a heading followed by blank lines followed by body
text whose first line is not blank reduces to exactly the body text. -/
theorem stripTitle_eq (title : String) (blanks body : Content)
    (hb : ∀ l ∈ blanks, isBlankLine l = true)
    (hh : ∀ l, body.head? = some l → isBlankLine l = false) :
    stripTitle (title :: (blanks ++ body)) = body := by
  simp only [stripTitle]
  induction blanks with
  | nil =>
    cases body with
    | nil => rfl
    | cons b bs => simp [List.dropWhile, hh b rfl]
  | cons l ls ih =>
    simp only [List.cons_append, List.dropWhile, hb l (List.mem_cons_self l ls)]
    exact ih (fun m hm => hb m (List.mem_cons_of_mem _ hm))

/-! ## Claim theorems -/

/-- C6: the `update` command requires an existing agent-instructions file
(CLAUDE.md or AmazonQ.md) at the project root: if neither is present it
returns exit code 1 and performs no filesystem mutation at all (in
particular, no directories are created). -/
theorem c6_update_requires_agent (pkg : Pkg) (s : FS)
    (hc : s.files ["CLAUDE.md"] = none) (ha : s.files ["AmazonQ.md"] = none) :
    update_command pkg s = (1, s) := by
  simp [update_command, FS.fileExists, hc, ha]

theorem c6_update_requires_agent_witness :
    update_command pkgDemo fsFresh = (1, fsFresh) :=
  c6_update_requires_agent pkgDemo fsFresh (by decide) rfl

/-- C9: in the per-file loop of `copy_source_files`, whenever the source
path equals the target path the iteration is skipped and the state is
unchanged, and the guarded source-to-target copy can never reach the
`SameFileError` branch of `shutil.copy2`: whenever the source file exists
the step completes without raising. -/
theorem c9_self_copy_skip (sd td pd : FPath) (f : String) (s : FS) :
    (sd ++ [f] = td ++ [f] → copyStep sd td pd f s = .ok s) ∧
    (s.fileExists (sd ++ [f]) = true → ∃ s', copyStep sd td pd f s = .ok s') := by
  constructor
  · intro h
    simp [copyStep, h]
  · intro h
    by_cases he : sd ++ [f] = td ++ [f]
    · exact ⟨s, by simp [copyStep, he]⟩
    · obtain ⟨c, hc⟩ := Option.isSome_iff_exists.mp (by simpa [FS.fileExists] using h)
      exact ⟨s.write (td ++ [f]) c, by simp [copyStep, he, FS.fileExists, hc, copy2_ok he hc]⟩

theorem c9_self_copy_skip_witness :
    copyStep ["planning", "main"] ["planning", "main"] ["planning"] "domain.md" fsSeed
      = .ok fsSeed ∧
    ∃ s', copyStep ["planning", "main"] ["planning", "feature"] ["planning"] "domain.md"
      (fsSeed.write ["planning", "main", "domain.md"] ["# D"]) = .ok s' :=
  ⟨(c9_self_copy_skip ["planning", "main"] ["planning", "main"] ["planning"]
      "domain.md" fsSeed).1 rfl,
   (c9_self_copy_skip ["planning", "main"] ["planning", "feature"] ["planning"] "domain.md"
      (fsSeed.write ["planning", "main", "domain.md"] ["# D"])).2 (by decide)⟩

/-- After `create_command` passes the confirmation gate, the agent file at
the project root holds exactly the title-stripped template content,
regardless of whatever file was there before and of whether a later
template copy aborted the command. -/
theorem create_command_agent_file (pkg : Pkg) (a confirm : Bool) (s : FS)
    (hok : s.dirExists [".git"] = true ∨ confirm = true)
    (lines : Content) (htm : pkg.tmpl (agentName a) = some lines) :
    ((create_command pkg a confirm s).2).files [agentName a] = some (stripTitle lines) := by
  have hguard : ¬ (¬ s.dirExists [".git"] ∧ ¬ confirm) := by
    rcases hok with h | h <;> simp [h]
  simp only [create_command, if_neg hguard, htm]
  split
  · next e hF =>
    have h1 := copyPkgList_files _ _ _ _ _ hF [agentName a] (by intro n hn; simp)
    simp only [exState_error] at h1
    rw [h1]
    simp
  · next s4 hF =>
    have h1 := copyPkgList_files _ _ _ _ _ hF [agentName a] (by intro n hn; simp)
    simp only [exState_ok] at h1
    split
    · next e hG =>
      have h2 := copyPkgList_files _ _ _ _ _ hG [agentName a] (by intro n hn; simp)
      simp only [exState_error] at h2
      rw [h2, h1]
      simp
    · next s5 hG =>
      have h2 := copyPkgList_files _ _ _ _ _ hG [agentName a] (by intro n hn; simp)
      simp only [exState_ok] at h2
      rw [h2, h1]
      simp

/-- C5: for every agent-instructions template whose first line is a
heading followed by zero or more blank lines and then body text, the file
written to the variant-specific filename at the project root equals the
body text with no leading blank line, overwriting any existing file at
that path. -/
theorem c5_title_strip (pkg : Pkg) (a confirm : Bool) (s : FS)
    (hok : s.dirExists [".git"] = true ∨ confirm = true)
    (title : String) (blanks brest : Content) (b0 : String)
    (htm : pkg.tmpl (agentName a) = some (title :: (blanks ++ (b0 :: brest))))
    (hb : ∀ l ∈ blanks, isBlankLine l = true)
    (hb0 : isBlankLine b0 = false) :
    ((create_command pkg a confirm s).2).files [agentName a] = some (b0 :: brest) ∧
    isBlankLine b0 = false := by
  refine ⟨?_, hb0⟩
  rw [create_command_agent_file pkg a confirm s hok _ htm]
  rw [stripTitle_eq title blanks (b0 :: brest) hb]
  intro l hl
  rw [List.head?_cons, Option.some_inj] at hl
  rwa [hl] at hb0

theorem c5_title_strip_witness :
    ((create_command pkgDemo false true fsEdited).2).files ["CLAUDE.md"]
      = some ["Body line 1", "Body line 2"] ∧
    isBlankLine "Body line 1" = false :=
  c5_title_strip pkgDemo false true fsEdited (Or.inr rfl)
    "# CLAUDE.md Title" [""] ["Body line 2"] "Body line 1" (by decide) (by decide) (by decide)

/-- C1 counterexample: `docs/api-docs.md` was present before the second
`init` run with the user's content, it is not the agent-instructions file,
and the second run (exit 0) replaced its content with the packaged
template — so files other than the agent-instructions file do not retain
their byte content. -/
theorem c1_counterexample :
    fsEdited.files ["docs", "api-docs.md"] = some ["user notes"] ∧
    (create_command pkgDemo false true fsEdited).1 = 0 ∧
    ((create_command pkgDemo false true fsEdited).2).files ["docs", "api-docs.md"]
      = some ["# API Documentation"] ∧
    (["user notes"] : Content) ≠ ["# API Documentation"] ∧
    (["docs", "api-docs.md"] : FPath) ≠ ["CLAUDE.md"] := by
  refine ⟨by decide, by decide, by decide, by decide, by decide⟩

/-- C2 counterexample: a successful scaffolder run on a state whose
`planning/templates` also holds `setup.md` populates the branch directory
with `setup.md` — a file that is not one of the three per-branch templates
— so the branch directory does not contain exactly those three files. -/
theorem c2_counterexample :
    (runNew "feature/x" "main" fsWithSetup).1 = 0 ∧
    ((runNew "feature/x" "main" fsWithSetup).2).files
      ["planning", "feature", "x", "setup.md"] = some ["# Setup tmpl"] ∧
    "setup.md" ∉ feature_templates := by
  refine ⟨by decide, by decide, by decide⟩

/-- C4 counterexample: scaffolding branch `a/b/c` (exit 0) also creates
the directory `planning/main`, which did not exist before and is not an
ancestor of `planning/a/b/c` — a sibling directory is created. -/
theorem c4_counterexample :
    (runNew "a/b/c" "main" fsSeed).1 = 0 ∧
    ["planning", "main"] ∈ ((runNew "a/b/c" "main" fsSeed).2).dirs ∧
    ["planning", "main"] ∉ fsSeed.dirs ∧
    ["planning", "main"] ∉ prefixesOf (branchDir "a/b/c") := by
  refine ⟨by decide, by decide, by decide, by decide⟩

/-- C8 counterexample: in the `init` flow a missing packaged template
(`tasks.md`) aborts the command with exit code 1 and the remaining
template `to-do.md` is not created, instead of being reported as a
per-file warning with the remaining templates still created and exit 0. -/
theorem c8_counterexample :
    pkgNoTasks.tmpl "tasks.md" = none ∧
    (create_command pkgNoTasks false true fsFresh).1 = 1 ∧
    ((create_command pkgNoTasks false true fsFresh).2).files
      ["planning", "templates", "feature.md"] = some ["# Feature Template"] ∧
    ((create_command pkgNoTasks false true fsFresh).2).files
      ["planning", "templates", "to-do.md"] = none := by
  refine ⟨by decide, by decide, by decide, by decide⟩

/-- The `update` template loop never changes any file that already
exists: it only writes destinations that are absent. -/
theorem updateLoop_preserve (tmpl : String → Option Content)
    (l : List (String × FPath)) (s : FS) (r : FsResult)
    (hr : updateLoop tmpl l s = r) (p : FPath) (hp : (s.files p).isSome = true) :
    (exState r).files p = s.files p := by
  induction l generalizing s with
  | nil => cases hr; rfl
  | cons nd rest ih =>
    obtain ⟨n, d⟩ := nd
    simp only [updateLoop] at hr
    by_cases hd : s.fileExists d
    · rw [if_pos hd] at hr
      exact ih s hr hp
    · rw [if_neg hd] at hr
      cases htn : tmpl n with
      | none => rw [htn] at hr; cases hr; rfl
      | some c =>
        rw [htn] at hr
        have hpd : p ≠ d := by
          intro he
          rw [he] at hp
          exact hd (by simpa [FS.fileExists] using hp)
        rw [ih _ hr (by simpa [hpd] using hp)]
        simp [hpd]

/-- C7: on a successful `update` run, every template destination that
already exists keeps its prior content, while `planning/new_project.py`
is always overwritten with the latest packaged copy. -/
theorem c7_update_frame (pkg : Pkg) (s : FS) (h0 : (update_command pkg s).1 = 0) :
    (∀ nd ∈ template_mappings, (s.files nd.2).isSome = true →
       ((update_command pkg s).2).files nd.2 = s.files nd.2) ∧
    ((update_command pkg s).2).files ["planning", "new_project.py"] = some pkg.script := by
  by_cases hg : ¬ s.fileExists ["CLAUDE.md"] ∧ ¬ s.fileExists ["AmazonQ.md"]
  · simp [update_command, hg] at h0
  · simp only [update_command, if_neg hg] at h0 ⊢
    constructor
    · intro nd hnd hex
      split at h0
      · simp at h0
      · next s2 hU =>
        have h2 := updateLoop_preserve _ _ _ _ hU nd.2 hex
        simp only [exState_ok] at h2
        split at h0
        · simp at h0
        · next c hM =>
            have hscript : nd.2 ≠ (["planning", "new_project.py"] : FPath) := by
              fin_cases hnd <;> decide
            have hmig : nd.2 ≠ (["MIGRATION_INSTRUCTIONS.md"] : FPath) := by
              fin_cases hnd <;> decide
            simp only [FS.write_files, if_neg hmig, if_neg hscript]
            rw [h2]
            simp [FS.mkdir, FS.mkdirAll]
    · split at h0
      · simp at h0
      · next s2 hU =>
        split at h0
        · simp at h0
        · next c hM => simp

theorem c7_update_frame_witness :
    (update_command pkgDemo fsEdited).1 = 0 ∧
    ("api-docs.md", (["docs", "api-docs.md"] : FPath)) ∈ template_mappings ∧
    ((update_command pkgDemo fsEdited).2).files ["docs", "api-docs.md"] = some ["user notes"] ∧
    ((update_command pkgDemo fsEdited).2).files ["planning", "new_project.py"]
      = some ["helper script v2"] := by
  have h := c7_update_frame pkgDemo fsEdited (by decide)
  refine ⟨by decide, by decide, ?_, h.2⟩
  rw [h.1 ("api-docs.md", ["docs", "api-docs.md"]) (by decide) (by decide)]
  decide

/-! ## Directory-set lemmas -/

theorem foldl_insert_mem (l : List FPath) (ds : List FPath) (q : FPath) (h : q ∈ ds) :
    q ∈ l.foldl (fun ds' q' => if q' ∈ ds' then ds' else ds' ++ [q']) ds := by
  induction l generalizing ds with
  | nil => exact h
  | cons p rest ih =>
    simp only [List.foldl_cons]
    refine ih _ ?_
    by_cases hp : p ∈ ds
    · simpa [hp] using h
    · simp [hp, List.mem_append, h]

theorem foldl_insert_sub (l : List FPath) (ds : List FPath) (d : FPath)
    (h : d ∈ l.foldl (fun ds' q' => if q' ∈ ds' then ds' else ds' ++ [q']) ds) :
    d ∈ ds ∨ d ∈ l := by
  induction l generalizing ds with
  | nil => exact Or.inl h
  | cons p rest ih =>
    simp only [List.foldl_cons] at h
    rcases ih _ h with h1 | h1
    · by_cases hp : p ∈ ds
      · rw [if_pos hp] at h1
        exact Or.inl h1
      · rw [if_neg hp] at h1
        rcases List.mem_append.mp h1 with h2 | h2
        · exact Or.inl h2
        · simp only [List.mem_singleton] at h2
          exact Or.inr (h2 ▸ List.mem_cons_self p rest)
    · exact Or.inr (List.mem_cons_of_mem _ h1)

theorem foldl_insert_self (l : List FPath) (ds : List FPath) (q : FPath) (h : q ∈ l) :
    q ∈ l.foldl (fun ds' q' => if q' ∈ ds' then ds' else ds' ++ [q']) ds := by
  induction l generalizing ds with
  | nil => cases h
  | cons p rest ih =>
    simp only [List.foldl_cons]
    rcases List.mem_cons.mp h with h1 | h1
    · subst h1
      refine foldl_insert_mem _ _ _ ?_
      by_cases hp : q ∈ ds
      · simp [hp]
      · simp [hp]
    · exact ih _ h1

theorem foldl_insert_id (l : List FPath) (ds : List FPath) (h : ∀ q ∈ l, q ∈ ds) :
    l.foldl (fun ds' q' => if q' ∈ ds' then ds' else ds' ++ [q']) ds = ds := by
  induction l with
  | nil => rfl
  | cons p rest ih =>
    simp only [List.foldl_cons, if_pos (h p (List.mem_cons_self p rest))]
    exact ih (fun q hq => h q (List.mem_cons_of_mem _ hq))

theorem mkdirAll_mem (s : FS) (p : FPath) (q : FPath) (h : q ∈ s.dirs) :
    q ∈ (s.mkdirAll p).dirs :=
  foldl_insert_mem _ _ _ h

theorem mkdirAll_sub (s : FS) (p : FPath) (d : FPath) (h : d ∈ (s.mkdirAll p).dirs) :
    d ∈ s.dirs ∨ d ∈ prefixesOf p :=
  foldl_insert_sub _ _ _ h

theorem mkdirAll_of_mem_prefixes (s : FS) (p : FPath) (q : FPath) (h : q ∈ prefixesOf p) :
    q ∈ (s.mkdirAll p).dirs :=
  foldl_insert_self _ _ _ h

theorem self_mem_prefixesOf (p : FPath) (h : p ≠ []) : p ∈ prefixesOf p := by
  have hl : 0 < p.length := List.length_pos.mpr h
  simp only [prefixesOf, List.mem_map, List.mem_range]
  exact ⟨p.length - 1, by omega, by rw [Nat.sub_add_cancel hl, List.take_length]⟩

theorem mkdirAll_id (s : FS) (p : FPath) (h : ∀ q ∈ prefixesOf p, q ∈ s.dirs) :
    s.mkdirAll p = s := by
  cases s with
  | mk dirs files => simp [FS.mkdirAll, foldl_insert_id _ _ h]

/-! ## Step and loop lemmas for the scaffolder -/

theorem copy2_dirs (src dst : FPath) (s : FS) (r : FsResult) (hr : copy2 src dst s = r) :
    (exState r).dirs = s.dirs := by
  unfold copy2 at hr
  split at hr
  · cases hr; rfl
  · split at hr <;> cases hr <;> rfl

theorem copy2_files_frame (src dst : FPath) (s : FS) (r : FsResult) (hr : copy2 src dst s = r)
    (p : FPath) (hp : p ≠ dst) : (exState r).files p = s.files p := by
  unfold copy2 at hr
  split at hr
  · cases hr; rfl
  · split at hr <;> cases hr
    · rfl
    · simp [hp]

theorem getLast_append_single (xs : FPath) (a : String) :
    (xs ++ [a]).getLast? = some a := by
  simp

theorem ne_append_single_of_last {p : FPath} {q : FPath} {a : String}
    (h : p.getLast? ≠ some a) : p ≠ q ++ [a] := by
  intro he
  rw [he, getLast_append_single] at h
  exact h rfl

theorem seedStep_dirs (sd pd : FPath) (f : String) (s : FS) (r : FsResult)
    (hr : seedStep sd pd f s = r) : (exState r).dirs = s.dirs := by
  unfold seedStep at hr
  split at hr
  · exact copy2_dirs _ _ _ _ hr
  · cases hr; rfl

theorem seedStep_files (sd pd : FPath) (f : String) (s : FS) (r : FsResult)
    (hr : seedStep sd pd f s = r) (p : FPath) (hp : p.getLast? ≠ some f) :
    (exState r).files p = s.files p := by
  unfold seedStep at hr
  split at hr
  · exact copy2_files_frame _ _ _ _ hr p (ne_append_single_of_last hp)
  · cases hr; rfl

theorem copyStep_dirs (sd td pd : FPath) (f : String) (s : FS) (r : FsResult)
    (hr : copyStep sd td pd f s = r) : (exState r).dirs = s.dirs := by
  unfold copyStep at hr
  split at hr
  · cases hr; rfl
  · split at hr
    · exact copy2_dirs _ _ _ _ hr
    · split at hr
      · exact copy2_dirs _ _ _ _ hr
      · cases hr; rfl

theorem copyStep_files (sd td pd : FPath) (f : String) (s : FS) (r : FsResult)
    (hr : copyStep sd td pd f s = r) (p : FPath) (hp : p.getLast? ≠ some f) :
    (exState r).files p = s.files p := by
  unfold copyStep at hr
  split at hr
  · cases hr; rfl
  · split at hr
    · exact copy2_files_frame _ _ _ _ hr p (ne_append_single_of_last hp)
    · split at hr
      · exact copy2_files_frame _ _ _ _ hr p (ne_append_single_of_last hp)
      · cases hr; rfl

theorem tmplStep_dirs (td pd : FPath) (f : String) (s : FS) (r : FsResult)
    (hr : tmplStep td pd f s = r) : (exState r).dirs = s.dirs := by
  unfold tmplStep at hr
  split at hr
  · exact copy2_dirs _ _ _ _ hr
  · cases hr; rfl

theorem tmplStep_files (td pd : FPath) (f : String) (s : FS) (r : FsResult)
    (hr : tmplStep td pd f s = r) (p : FPath) (hp : p.getLast? ≠ some f) :
    (exState r).files p = s.files p := by
  unfold tmplStep at hr
  split at hr
  · exact copy2_files_frame _ _ _ _ hr p (ne_append_single_of_last hp)
  · cases hr; rfl

theorem seedLoop_dirs (sd pd : FPath) (names : List String) (s : FS) (r : FsResult)
    (hr : seedLoop sd pd names s = r) : (exState r).dirs = s.dirs := by
  induction names generalizing s with
  | nil => cases hr; rfl
  | cons f rest ih =>
    simp only [seedLoop] at hr
    cases hstep : seedStep sd pd f s with
    | error e =>
      rw [hstep] at hr
      cases hr
      simpa using seedStep_dirs sd pd f s _ hstep
    | ok s1 =>
      rw [hstep] at hr
      rw [ih _ hr]
      simpa using seedStep_dirs sd pd f s _ hstep

theorem seedLoop_files (sd pd : FPath) (names : List String) (s : FS) (r : FsResult)
    (hr : seedLoop sd pd names s = r) (p : FPath) (hp : ∀ f ∈ names, p.getLast? ≠ some f) :
    (exState r).files p = s.files p := by
  induction names generalizing s with
  | nil => cases hr; rfl
  | cons f rest ih =>
    simp only [seedLoop] at hr
    cases hstep : seedStep sd pd f s with
    | error e =>
      rw [hstep] at hr
      cases hr
      simpa using seedStep_files sd pd f s _ hstep p (hp f (List.mem_cons_self f rest))
    | ok s1 =>
      rw [hstep] at hr
      rw [ih _ hr (fun g hg => hp g (List.mem_cons_of_mem _ hg))]
      simpa using seedStep_files sd pd f s _ hstep p (hp f (List.mem_cons_self f rest))

theorem copyLoop_dirs (sd td pd : FPath) (names : List String) (s : FS) (r : FsResult)
    (hr : copyLoop sd td pd names s = r) : (exState r).dirs = s.dirs := by
  induction names generalizing s with
  | nil => cases hr; rfl
  | cons f rest ih =>
    simp only [copyLoop] at hr
    cases hstep : copyStep sd td pd f s with
    | error e =>
      rw [hstep] at hr
      cases hr
      simpa using copyStep_dirs sd td pd f s _ hstep
    | ok s1 =>
      rw [hstep] at hr
      rw [ih _ hr]
      simpa using copyStep_dirs sd td pd f s _ hstep

theorem copyLoop_files (sd td pd : FPath) (names : List String) (s : FS) (r : FsResult)
    (hr : copyLoop sd td pd names s = r) (p : FPath) (hp : ∀ f ∈ names, p.getLast? ≠ some f) :
    (exState r).files p = s.files p := by
  induction names generalizing s with
  | nil => cases hr; rfl
  | cons f rest ih =>
    simp only [copyLoop] at hr
    cases hstep : copyStep sd td pd f s with
    | error e =>
      rw [hstep] at hr
      cases hr
      simpa using copyStep_files sd td pd f s _ hstep p (hp f (List.mem_cons_self f rest))
    | ok s1 =>
      rw [hstep] at hr
      rw [ih _ hr (fun g hg => hp g (List.mem_cons_of_mem _ hg))]
      simpa using copyStep_files sd td pd f s _ hstep p (hp f (List.mem_cons_self f rest))

theorem tmplLoop_dirs (td pd : FPath) (names : List String) (s : FS) (r : FsResult)
    (hr : tmplLoop td pd names s = r) : (exState r).dirs = s.dirs := by
  induction names generalizing s with
  | nil => cases hr; rfl
  | cons f rest ih =>
    simp only [tmplLoop] at hr
    cases hstep : tmplStep td pd f s with
    | error e =>
      rw [hstep] at hr
      cases hr
      simpa using tmplStep_dirs td pd f s _ hstep
    | ok s1 =>
      rw [hstep] at hr
      rw [ih _ hr]
      simpa using tmplStep_dirs td pd f s _ hstep

theorem tmplLoop_files (td pd : FPath) (names : List String) (s : FS) (r : FsResult)
    (hr : tmplLoop td pd names s = r) (p : FPath) (hp : ∀ f ∈ names, p.getLast? ≠ some f) :
    (exState r).files p = s.files p := by
  induction names generalizing s with
  | nil => cases hr; rfl
  | cons f rest ih =>
    simp only [tmplLoop] at hr
    cases hstep : tmplStep td pd f s with
    | error e =>
      rw [hstep] at hr
      cases hr
      simpa using tmplStep_files td pd f s _ hstep p (hp f (List.mem_cons_self f rest))
    | ok s1 =>
      rw [hstep] at hr
      rw [ih _ hr (fun g hg => hp g (List.mem_cons_of_mem _ hg))]
      simpa using tmplStep_files td pd f s _ hstep p (hp f (List.mem_cons_self f rest))

/-- `create_template_files` can never raise: every copy it performs is
guarded by the target being absent and the template source existing. -/
theorem tmplStep_never_raises (td pd : FPath) (f : String) (s : FS) :
    ∃ s', tmplStep td pd f s = .ok s' := by
  unfold tmplStep
  by_cases h1 : s.fileExists (td ++ [f])
  · exact ⟨s, by simp [h1]⟩
  · by_cases h2 : s.fileExists (pd ++ ["templates", f])
    · obtain ⟨c, hc⟩ := Option.isSome_iff_exists.mp (by simpa [FS.fileExists] using h2)
      have hne : pd ++ ["templates", f] ≠ td ++ [f] := by
        intro he
        rw [he] at h2
        exact h1 h2
      exact ⟨s.write (td ++ [f]) c, by simp [h1, h2, copy2_ok hne hc]⟩
    · exact ⟨s, by simp [h1, h2]⟩

theorem tmplLoop_never_raises (td pd : FPath) (names : List String) (s : FS) :
    ∃ s', tmplLoop td pd names s = .ok s' := by
  induction names generalizing s with
  | nil => exact ⟨s, rfl⟩
  | cons f rest ih =>
    obtain ⟨s1, h1⟩ := tmplStep_never_raises td pd f s
    obtain ⟨s2, h2⟩ := ih s1
    exact ⟨s2, by simp [tmplLoop, h1, h2]⟩

theorem csf_dirs_mono (sd td pd : FPath) (s : FS) (r : FsResult)
    (hr : copy_source_files sd td pd s = r) (q : FPath) (hq : q ∈ s.dirs) :
    q ∈ (exState r).dirs := by
  unfold copy_source_files at hr
  by_cases hc : ¬ s.dirExists sd ∧ lastSeg sd = "main"
  · rw [if_pos hc] at hr
    cases hseed : seedLoop sd pd files_to_copy (s.mkdirAll sd) with
    | error e =>
      rw [hseed] at hr
      cases hr
      have h1 := seedLoop_dirs _ _ _ _ _ hseed
      simp only [exState_error] at h1 ⊢
      rw [h1]
      exact mkdirAll_mem s sd q hq
    | ok s0 =>
      rw [hseed] at hr
      have h1 := seedLoop_dirs _ _ _ _ _ hseed
      simp only [exState_ok] at h1
      have h2 := copyLoop_dirs _ _ _ _ _ _ hr
      rw [h2, h1]
      exact mkdirAll_mem s sd q hq
  · rw [if_neg hc] at hr
    rw [copyLoop_dirs _ _ _ _ _ _ hr]
    exact hq

theorem csf_dirs_sub (sd td pd : FPath) (s : FS) (r : FsResult)
    (hr : copy_source_files sd td pd s = r) (d : FPath) (hd : d ∈ (exState r).dirs) :
    d ∈ s.dirs ∨ d ∈ prefixesOf sd := by
  unfold copy_source_files at hr
  by_cases hc : ¬ s.dirExists sd ∧ lastSeg sd = "main"
  · rw [if_pos hc] at hr
    cases hseed : seedLoop sd pd files_to_copy (s.mkdirAll sd) with
    | error e =>
      rw [hseed] at hr
      cases hr
      have h1 := seedLoop_dirs _ _ _ _ _ hseed
      simp only [exState_error] at h1 hd
      rw [h1] at hd
      exact mkdirAll_sub s sd d hd
    | ok s0 =>
      rw [hseed] at hr
      have h1 := seedLoop_dirs _ _ _ _ _ hseed
      simp only [exState_ok] at h1
      have h2 := copyLoop_dirs _ _ _ _ _ _ hr
      rw [h2, h1] at hd
      exact mkdirAll_sub s sd d hd
  · rw [if_neg hc] at hr
    rw [copyLoop_dirs _ _ _ _ _ _ hr] at hd
    exact Or.inl hd

theorem csf_dirs_skip (sd td pd : FPath) (s : FS) (r : FsResult)
    (hr : copy_source_files sd td pd s = r)
    (hcond : s.dirExists sd = true ∨ lastSeg sd ≠ "main") :
    (exState r).dirs = s.dirs := by
  unfold copy_source_files at hr
  have hc : ¬ (¬ s.dirExists sd ∧ lastSeg sd = "main") := by
    rcases hcond with h | h
    · simp [h]
    · simp [h]
  rw [if_neg hc] at hr
  exact copyLoop_dirs _ _ _ _ _ _ hr

theorem csf_files_frame (sd td pd : FPath) (s : FS) (r : FsResult)
    (hr : copy_source_files sd td pd s = r) (p : FPath)
    (hp : ∀ f ∈ files_to_copy, p.getLast? ≠ some f) :
    (exState r).files p = s.files p := by
  unfold copy_source_files at hr
  by_cases hc : ¬ s.dirExists sd ∧ lastSeg sd = "main"
  · rw [if_pos hc] at hr
    cases hseed : seedLoop sd pd files_to_copy (s.mkdirAll sd) with
    | error e =>
      rw [hseed] at hr
      cases hr
      have h1 := seedLoop_files _ _ _ _ _ hseed p hp
      simpa using h1
    | ok s0 =>
      rw [hseed] at hr
      have h1 := seedLoop_files _ _ _ _ _ hseed p hp
      simp only [exState_ok, FS.mkdirAll_files] at h1
      rw [copyLoop_files _ _ _ _ _ _ hr p hp, h1]
  · rw [if_neg hc] at hr
    exact copyLoop_files _ _ _ _ _ _ hr p hp

theorem runNew_files_frame (br src : String) (s : FS) (p : FPath)
    (hp : ∀ f ∈ files_to_copy ++ new_project_templates, p.getLast? ≠ some f) :
    ((runNew br src s).2).files p = s.files p := by
  have hp1 : ∀ f ∈ files_to_copy, p.getLast? ≠ some f :=
    fun f hf => hp f (List.mem_append_left _ hf)
  have hp2 : ∀ f ∈ new_project_templates, p.getLast? ≠ some f :=
    fun f hf => hp f (List.mem_append_right _ hf)
  unfold runNew
  split
  · rfl
  · split
    · rfl
    · cases hcsf : copy_source_files ("planning" :: splitSlash src) (branchDir br) ["planning"]
        (s.mkdirAll (branchDir br)) with
      | error e =>
        simp only [hcsf]
        have h1 := csf_files_frame _ _ _ _ _ hcsf p hp1
        simpa using h1
      | ok s2 =>
        simp only [hcsf]
        have h1 := csf_files_frame _ _ _ _ _ hcsf p hp1
        simp only [exState_ok, FS.mkdirAll_files] at h1
        cases htl : tmplLoop (branchDir br) ["planning"] new_project_templates s2 with
        | error e =>
          simp only [htl]
          have h2 := tmplLoop_files _ _ _ _ _ htl p hp2
          simp only [exState_error] at h2
          rw [h2, h1]
        | ok s3 =>
          simp only [htl]
          have h2 := tmplLoop_files _ _ _ _ _ htl p hp2
          simp only [exState_ok] at h2
          rw [h2, h1]

/-- C8 (amended): the per-branch scaffold template pass never aborts on a
missing template — `create_template_files` always completes — and
concretely, scaffolding with `tasks.md` missing from `planning/templates`
still exits 0 and still creates the remaining templates (`feature.md`,
`to-do.md`).  The init/update flows do not share this behaviour (see the
counterexample). -/
theorem c8_scaffold_best_effort :
    (∀ (td pd : FPath) (names : List String) (s : FS),
        ∃ s', tmplLoop td pd names s = .ok s') ∧
    fsNoTasks.files ["planning", "templates", "tasks.md"] = none ∧
    (runNew "feature/y" "main" fsNoTasks).1 = 0 ∧
    ((runNew "feature/y" "main" fsNoTasks).2).files
      ["planning", "feature", "y", "feature.md"] = some ["# Feature Template"] ∧
    ((runNew "feature/y" "main" fsNoTasks).2).files
      ["planning", "feature", "y", "to-do.md"] = some ["# To-Do Template"] :=
  ⟨tmplLoop_never_raises, by decide, by decide, by decide, by decide⟩

/-- C2 (amended): a scaffolder run only ever writes files whose final name
is one of the nine fixed template names into the branch directory
(anything else keeps its prior content), and in the init-produced state —
where `planning/templates` holds exactly the three per-branch templates —
a four-segment branch creates all four nested directories and its leaf
holds exactly the three per-branch template files among the nine. -/
theorem c2_branch_files :
    (∀ (br src : String) (s : FS) (f : String),
        f ∉ files_to_copy ++ new_project_templates →
        ((runNew br src s).2).files (branchDir br ++ [f])
          = s.files (branchDir br ++ [f])) ∧
    (runNew "feature/auth/oauth/google-integration" "main" fsInit).1 = 0 ∧
    (∀ q ∈ prefixesOf (branchDir "feature/auth/oauth/google-integration"),
        q ∈ ((runNew "feature/auth/oauth/google-integration" "main" fsInit).2).dirs) ∧
    (∀ f ∈ files_to_copy ++ new_project_templates,
        ((runNew "feature/auth/oauth/google-integration" "main" fsInit).2).files
            (branchDir "feature/auth/oauth/google-integration" ++ [f])
          = if f ∈ feature_templates then pkgDemo.tmpl f else none) := by
  refine ⟨?_, by decide, by decide, by decide⟩
  intro br src s f hf
  refine runNew_files_frame br src s _ ?_
  intro g hg
  rw [getLast_append_single]
  intro he
  rw [Option.some_inj] at he
  exact hf (he ▸ hg)

theorem c2_branch_files_witness :
    ((runNew "feature/x" "main" fsInit).2).files (branchDir "feature/x" ++ ["notes.md"])
      = fsInit.files (branchDir "feature/x" ++ ["notes.md"]) ∧
    fsInit.files (branchDir "feature/x" ++ ["notes.md"]) = none :=
  ⟨c2_branch_files.1 "feature/x" "main" fsInit "notes.md" (by decide), by decide⟩

/-- Directory existence is preserved by creating more directories. -/
theorem dirExists_mkdirAll_of (s : FS) (p q : FPath) (h : s.dirExists q = true) :
    (s.mkdirAll p).dirExists q = true := by
  simp only [FS.dirExists, decide_eq_true_eq] at h ⊢
  exact mkdirAll_mem s p q h

/-- C4 (amended): the scaffolder creates exactly the ancestor chain of the
branch path obtained by splitting the branch name on `/` under the fixed
`planning` root — on success every prefix of the branch path exists, and
every directory of the final state was either pre-existing, a prefix of
the branch path, or a prefix of the source-branch path; when the source
branch directory already exists or is not named `main`, no directory
outside the branch path's ancestor chain is created at all. -/
theorem c4_branch_path (br src : String) (s : FS) :
    ((runNew br src s).1 = 0 →
        ∀ q ∈ prefixesOf (branchDir br), q ∈ ((runNew br src s).2).dirs) ∧
    (∀ d ∈ ((runNew br src s).2).dirs,
        d ∈ s.dirs ∨ d ∈ prefixesOf (branchDir br)
          ∨ d ∈ prefixesOf ("planning" :: splitSlash src)) ∧
    ((s.dirExists ("planning" :: splitSlash src) = true
        ∨ lastSeg ("planning" :: splitSlash src) ≠ "main") →
      ∀ d ∈ ((runNew br src s).2).dirs, d ∈ s.dirs ∨ d ∈ prefixesOf (branchDir br)) := by
  by_cases hbr : br = ""
  · simp only [runNew, if_pos hbr]
    exact ⟨fun h0 => by simp at h0, fun d hd => Or.inl hd, fun _ d hd => Or.inl hd⟩
  · by_cases hpl : s.dirExists ["planning"] = true
    · have hplm : ¬ (¬ s.dirExists ["planning"] = true) := by simp [hpl]
      simp only [runNew, if_neg hbr, if_neg hplm]
      cases hcsf : copy_source_files ("planning" :: splitSlash src) (branchDir br) ["planning"]
          (s.mkdirAll (branchDir br)) with
      | error e =>
        simp only [hcsf]
        have hsub : ∀ d ∈ e.dirs,
            d ∈ s.dirs ∨ d ∈ prefixesOf (branchDir br)
              ∨ d ∈ prefixesOf ("planning" :: splitSlash src) := by
          intro d hd
          have h1 := csf_dirs_sub _ _ _ _ _ hcsf d (by simpa using hd)
          rcases h1 with h1 | h1
          · rcases mkdirAll_sub s _ d h1 with h2 | h2
            · exact Or.inl h2
            · exact Or.inr (Or.inl h2)
          · exact Or.inr (Or.inr h1)
        refine ⟨fun h0 => by simp at h0, hsub, ?_⟩
        intro hcond d hd
        have hskip := csf_dirs_skip _ _ _ _ _ hcsf
          (hcond.imp (dirExists_mkdirAll_of s (branchDir br) _) id)
        simp only [exState_error] at hskip
        rw [hskip] at hd
        rcases mkdirAll_sub s _ d hd with h2 | h2
        · exact Or.inl h2
        · exact Or.inr h2
      | ok s2 =>
        simp only [hcsf]
        cases htl : tmplLoop (branchDir br) ["planning"] new_project_templates s2 with
        | error e =>
          simp only [htl]
          have hed : e.dirs = s2.dirs := by
            simpa using tmplLoop_dirs _ _ _ _ _ htl
          have hsub : ∀ d ∈ e.dirs,
              d ∈ s.dirs ∨ d ∈ prefixesOf (branchDir br)
                ∨ d ∈ prefixesOf ("planning" :: splitSlash src) := by
            intro d hd
            rw [hed] at hd
            have h1 := csf_dirs_sub _ _ _ _ _ hcsf d (by simpa using hd)
            rcases h1 with h1 | h1
            · rcases mkdirAll_sub s _ d h1 with h2 | h2
              · exact Or.inl h2
              · exact Or.inr (Or.inl h2)
            · exact Or.inr (Or.inr h1)
          refine ⟨fun h0 => by simp at h0, hsub, ?_⟩
          intro hcond d hd
          rw [hed] at hd
          have hskip := csf_dirs_skip _ _ _ _ _ hcsf
            (hcond.imp (dirExists_mkdirAll_of s (branchDir br) _) id)
          simp only [exState_ok] at hskip
          rw [hskip] at hd
          rcases mkdirAll_sub s _ d hd with h2 | h2
          · exact Or.inl h2
          · exact Or.inr h2
        | ok s3 =>
          simp only [htl]
          have h3d : s3.dirs = s2.dirs := by
            simpa using tmplLoop_dirs _ _ _ _ _ htl
          refine ⟨?_, ?_, ?_⟩
          · intro _ q hq
            rw [h3d]
            have h1 := csf_dirs_mono _ _ _ _ _ hcsf q
              (mkdirAll_of_mem_prefixes s _ q hq)
            simpa using h1
          · intro d hd
            rw [h3d] at hd
            have h1 := csf_dirs_sub _ _ _ _ _ hcsf d (by simpa using hd)
            rcases h1 with h1 | h1
            · rcases mkdirAll_sub s _ d h1 with h2 | h2
              · exact Or.inl h2
              · exact Or.inr (Or.inl h2)
            · exact Or.inr (Or.inr h1)
          · intro hcond d hd
            rw [h3d] at hd
            have hskip := csf_dirs_skip _ _ _ _ _ hcsf
              (hcond.imp (dirExists_mkdirAll_of s (branchDir br) _) id)
            simp only [exState_ok] at hskip
            rw [hskip] at hd
            rcases mkdirAll_sub s _ d hd with h2 | h2
            · exact Or.inl h2
            · exact Or.inr h2
    · simp only [runNew, if_neg hbr, if_pos hpl]
      exact ⟨fun h0 => by simp at h0, fun d hd => Or.inl hd, fun _ d hd => Or.inl hd⟩

theorem c4_branch_path_witness :
    (runNew "a/b/c" "main" fsSeed).1 = 0 ∧
    ["planning", "a"] ∈ ((runNew "a/b/c" "main" fsSeed).2).dirs :=
  ⟨by decide,
   (c4_branch_path "a/b/c" "main" fsSeed).1 (by decide) ["planning", "a"] (by decide)⟩

/-! ## Step evaluation lemmas -/

theorem lastSeg_append_single (xs : FPath) (a : String) : lastSeg (xs ++ [a]) = a := by
  simp [lastSeg]

theorem append_single_right_cancel {xs ys : FPath} {a : String}
    (h : xs ++ [a] = ys ++ [a]) : xs = ys :=
  List.append_cancel_right h

theorem seedStep_write {sd pd : FPath} {f : String} {s : FS} {c : Content}
    (hc : s.files (pd ++ ["templates", f]) = some c)
    (hn : s.files (sd ++ [f]) = none)
    (hne : pd ++ ["templates", f] ≠ sd ++ [f]) :
    seedStep sd pd f s = .ok (s.write (sd ++ [f]) c) := by
  have h1 : s.fileExists (pd ++ ["templates", f]) = true := by simp [FS.fileExists, hc]
  have h2 : s.fileExists (sd ++ [f]) = false := by simp [FS.fileExists, hn]
  simp [seedStep, h1, h2, copy2_ok hne hc]

theorem seedStep_skip {sd pd : FPath} {f : String} {s : FS}
    (h : s.files (pd ++ ["templates", f]) = none ∨ s.files (sd ++ [f]) ≠ none) :
    seedStep sd pd f s = .ok s := by
  rcases h with h | h
  · have h1 : s.fileExists (pd ++ ["templates", f]) = false := by simp [FS.fileExists, h]
    simp [seedStep, h1]
  · have h2 : s.fileExists (sd ++ [f]) = true := by
      simpa [FS.fileExists, Option.isSome_iff_ne_none] using h
    simp [seedStep, h2]

theorem copyStep_src {sd td pd : FPath} {f : String} {s : FS} {c : Content}
    (hne : sd ++ [f] ≠ td ++ [f]) (hc : s.files (sd ++ [f]) = some c) :
    copyStep sd td pd f s = .ok (s.write (td ++ [f]) c) := by
  have h1 : s.fileExists (sd ++ [f]) = true := by simp [FS.fileExists, hc]
  simp [copyStep, hne, h1, copy2_ok hne hc]

theorem copyStep_tmpl {sd td pd : FPath} {f : String} {s : FS} {c : Content}
    (hne : sd ++ [f] ≠ td ++ [f]) (hn : s.files (sd ++ [f]) = none)
    (hc : s.files (pd ++ ["templates", f]) = some c)
    (hne2 : pd ++ ["templates", f] ≠ td ++ [f]) :
    copyStep sd td pd f s = .ok (s.write (td ++ [f]) c) := by
  have h1 : s.fileExists (sd ++ [f]) = false := by simp [FS.fileExists, hn]
  have h2 : s.fileExists (pd ++ ["templates", f]) = true := by simp [FS.fileExists, hc]
  simp [copyStep, hne, h1, h2, copy2_ok hne2 hc]

theorem copyStep_none {sd td pd : FPath} {f : String} {s : FS}
    (hne : sd ++ [f] ≠ td ++ [f]) (hn : s.files (sd ++ [f]) = none)
    (hn2 : s.files (pd ++ ["templates", f]) = none) :
    copyStep sd td pd f s = .ok s := by
  have h1 : s.fileExists (sd ++ [f]) = false := by simp [FS.fileExists, hn]
  have h2 : s.fileExists (pd ++ ["templates", f]) = false := by simp [FS.fileExists, hn2]
  simp [copyStep, hne, h1, h2]

/-- The copy branches a single `copy_source_files` iteration can take when
it returns normally. -/
theorem copyStep_char (sd td pd : FPath) (f : String) (s s1 : FS)
    (hstep : copyStep sd td pd f s = .ok s1) (hnef : sd ++ [f] ≠ td ++ [f]) :
    (∃ c, s.files (sd ++ [f]) = some c ∧ s1 = s.write (td ++ [f]) c) ∨
    (s.files (sd ++ [f]) = none ∧
       ∃ c, s.files (pd ++ ["templates", f]) = some c ∧
         pd ++ ["templates", f] ≠ td ++ [f] ∧ s1 = s.write (td ++ [f]) c) ∨
    (s.files (sd ++ [f]) = none ∧ s.files (pd ++ ["templates", f]) = none ∧ s1 = s) := by
  cases h1 : s.files (sd ++ [f]) with
  | some c =>
    rw [copyStep_src hnef h1] at hstep
    injection hstep with h
    exact Or.inl ⟨c, rfl, h.symm⟩
  | none =>
    cases h2 : s.files (pd ++ ["templates", f]) with
    | none =>
      rw [copyStep_none hnef h1 h2] at hstep
      injection hstep with h
      exact Or.inr (Or.inr ⟨rfl, rfl, h.symm⟩)
    | some c =>
      by_cases h3 : pd ++ ["templates", f] = td ++ [f]
      · have herr : copyStep sd td pd f s = .error s := by
          have ha : s.fileExists (sd ++ [f]) = false := by simp [FS.fileExists, h1]
          have hb : s.fileExists (pd ++ ["templates", f]) = true := by
            simp [FS.fileExists, h2]
          simp only [copyStep, if_neg hnef, ha, hb]
          simp [copy2, h3]
        rw [herr] at hstep
        exact Except.noConfusion hstep
      · rw [copyStep_tmpl hnef h1 h2 h3] at hstep
        injection hstep with h
        exact Or.inr (Or.inl ⟨rfl, c, rfl, h3, h.symm⟩)

/-- The branches a single seeding iteration can take when the template
directory is distinct from the seeded source directory. -/
theorem seedStep_char (sd pd : FPath) (f : String) (s s1 : FS)
    (hstep : seedStep sd pd f s = .ok s1) (hnef : pd ++ ["templates", f] ≠ sd ++ [f]) :
    (∃ c, s.files (pd ++ ["templates", f]) = some c ∧ s.files (sd ++ [f]) = none ∧
        s1 = s.write (sd ++ [f]) c) ∨
    ((s.files (pd ++ ["templates", f]) = none ∨ s.files (sd ++ [f]) ≠ none) ∧ s1 = s) := by
  cases h1 : s.files (sd ++ [f]) with
  | some c =>
    rw [seedStep_skip (Or.inr (by simp [h1]))] at hstep
    injection hstep with h
    exact Or.inr ⟨Or.inr (by simp [h1]), h.symm⟩
  | none =>
    cases h2 : s.files (pd ++ ["templates", f]) with
    | none =>
      rw [seedStep_skip (Or.inl h2)] at hstep
      injection hstep with h
      exact Or.inr ⟨Or.inl rfl, h.symm⟩
    | some c =>
      rw [seedStep_write h2 h1 hnef] at hstep
      injection hstep with h
      exact Or.inl ⟨c, rfl, rfl, h.symm⟩

/-- What a completed seeding pass guarantees: each seeded source file holds
its old content when it existed and otherwise the template's content, and
nothing outside the seeded paths changes. -/
theorem seedLoop_post (sd pd : FPath) (names : List String) (s out : FS)
    (hr : seedLoop sd pd names s = .ok out)
    (hnodup : names.Nodup)
    (hne : ∀ g ∈ names, pd ++ ["templates", g] ≠ sd ++ [g]) :
    (∀ g ∈ names, out.files (sd ++ [g])
        = (s.files (sd ++ [g])).or (s.files (pd ++ ["templates", g]))) ∧
    (∀ p, (∀ g ∈ names, p ≠ sd ++ [g]) → out.files p = s.files p) := by
  induction names generalizing s with
  | nil =>
    cases hr
    exact ⟨fun g hg => absurd hg (List.not_mem_nil g), fun p _ => rfl⟩
  | cons f rest ih =>
    simp only [seedLoop] at hr
    cases hstep : seedStep sd pd f s with
    | error e => rw [hstep] at hr; exact Except.noConfusion hr
    | ok s1 =>
      rw [hstep] at hr
      have hfr : f ∉ rest := (List.nodup_cons.mp hnodup).1
      have ihres := ih s1 hr (List.nodup_cons.mp hnodup).2
        (fun g hg => hne g (List.mem_cons_of_mem _ hg))
      have hchar := seedStep_char sd pd f s s1 hstep (hne f (List.mem_cons_self f rest))
      constructor
      · intro g hg
        rcases List.mem_cons.mp hg with hgf | hgr
        · subst hgf
          have hout : out.files (sd ++ [g]) = s1.files (sd ++ [g]) := by
            refine ihres.2 _ ?_
            intro h hh
            exact append_last_ne (fun he => hfr (he ▸ hh))
          rcases hchar with ⟨c, hc, hn, h1⟩ | ⟨hsk, h1⟩
          · rw [hout, h1]
            simp [hc, hn]
          · rw [hout, h1]
            rcases hsk with hsk | hsk
            · simp [hsk]
            · cases hv : s.files (sd ++ [g]) with
              | none => exact absurd hv hsk
              | some c => simp
        · have hgf : g ≠ f := fun he => hfr (he ▸ hgr)
          have h2 := ihres.1 g hgr
          rcases hchar with ⟨c, hc, hn, h1⟩ | ⟨hsk, h1⟩ <;> subst h1
          · rw [h2]
            rw [FS.write_files_ne _ _ _ _ (append_last_ne hgf)]
            rw [FS.write_files_ne]
            intro he
            have h3 : pd ++ ["templates"] ++ [g] = sd ++ [f] := by
              simpa [List.append_assoc] using he
            have h4 : lastSeg (pd ++ ["templates"] ++ [g]) = lastSeg (sd ++ [f]) := by rw [h3]
            rw [lastSeg_append_single, lastSeg_append_single] at h4
            exact hgf h4
          · exact h2
      · intro p hp
        have h2 := ihres.2 p (fun g hg => hp g (List.mem_cons_of_mem _ hg))
        rcases hchar with ⟨c, hc, hn, h1⟩ | ⟨hsk, h1⟩ <;> subst h1
        · rw [h2, FS.write_files_ne _ _ _ _ (hp f (List.mem_cons_self f rest))]
        · exact h2

/-- What a completed `copy_source_files` loop guarantees: each target file
receives the source file's content when the source exists, otherwise the
template's content when that exists, otherwise keeps its old content; and
nothing outside the target paths changes. -/
theorem copyLoop_post (sd td pd : FPath) (names : List String) (s out : FS)
    (hr : copyLoop sd td pd names s = .ok out)
    (hnodup : names.Nodup)
    (hne : ∀ g ∈ names, sd ++ [g] ≠ td ++ [g]) :
    (∀ g ∈ names, out.files (td ++ [g])
        = ((s.files (sd ++ [g])).or (s.files (pd ++ ["templates", g]))).or
            (s.files (td ++ [g]))) ∧
    (∀ p, (∀ g ∈ names, p ≠ td ++ [g]) → out.files p = s.files p) := by
  induction names generalizing s with
  | nil =>
    cases hr
    exact ⟨fun g hg => absurd hg (List.not_mem_nil g), fun p _ => rfl⟩
  | cons f rest ih =>
    simp only [copyLoop] at hr
    cases hstep : copyStep sd td pd f s with
    | error e => rw [hstep] at hr; exact Except.noConfusion hr
    | ok s1 =>
      rw [hstep] at hr
      have hfr : f ∉ rest := (List.nodup_cons.mp hnodup).1
      have ihres := ih s1 hr (List.nodup_cons.mp hnodup).2
        (fun g hg => hne g (List.mem_cons_of_mem _ hg))
      have hchar := copyStep_char sd td pd f s s1 hstep (hne f (List.mem_cons_self f rest))
      constructor
      · intro g hg
        rcases List.mem_cons.mp hg with hgf | hgr
        · subst hgf
          have hout : out.files (td ++ [g]) = s1.files (td ++ [g]) := by
            refine ihres.2 _ ?_
            intro h hh
            exact append_last_ne (fun he => hfr (he ▸ hh))
          rcases hchar with ⟨c, hc, h1⟩ | ⟨hn, c, hc, hne3, h1⟩ | ⟨hn, hn2, h1⟩ <;> subst h1
          · rw [hout]
            simp [hc]
          · rw [hout]
            simp [hn, hc]
          · rw [hout]
            simp [hn, hn2]
        · have hgf : g ≠ f := fun he => hfr (he ▸ hgr)
          have h2 := ihres.1 g hgr
          have hng : ∀ x : FPath, x ++ [g] ≠ td ++ [f] := by
            intro x he
            have h4 : lastSeg (x ++ [g]) = lastSeg (td ++ [f]) := by rw [he]
            rw [lastSeg_append_single, lastSeg_append_single] at h4
            exact hgf h4
          have hng2 : pd ++ ["templates", g] ≠ td ++ [f] := by
            have := hng (pd ++ ["templates"])
            simpa [List.append_assoc] using this
          rcases hchar with ⟨c, hc, h1⟩ | ⟨hn, c, hc, hne3, h1⟩ | ⟨hn, hn2, h1⟩ <;> subst h1 <;>
            rw [h2] <;>
            simp only [FS.write_files_ne _ _ _ _ (hng sd), FS.write_files_ne _ _ _ _ (hng td),
              FS.write_files_ne _ _ _ _ hng2]
      · intro p hp
        have h2 := ihres.2 p (fun g hg => hp g (List.mem_cons_of_mem _ hg))
        rcases hchar with ⟨c, hc, h1⟩ | ⟨hn, c, hc, hne3, h1⟩ | ⟨hn, hn2, h1⟩ <;> subst h1 <;>
          rw [h2]
        · rw [FS.write_files_ne _ _ _ _ (hp f (List.mem_cons_self f rest))]
        · rw [FS.write_files_ne _ _ _ _ (hp f (List.mem_cons_self f rest))]

/-- The seeding loop always completes when the template paths are distinct
from the seeded paths. -/
theorem seedLoop_progress (sd pd : FPath) (names : List String) (s : FS)
    (hne : ∀ g ∈ names, pd ++ ["templates", g] ≠ sd ++ [g]) :
    ∃ out, seedLoop sd pd names s = .ok out := by
  induction names generalizing s with
  | nil => exact ⟨s, rfl⟩
  | cons f rest ih =>
    have hnef := hne f (List.mem_cons_self f rest)
    have hstep : ∃ s1, seedStep sd pd f s = .ok s1 := by
      cases h1 : s.files (sd ++ [f]) with
      | some c => exact ⟨s, seedStep_skip (Or.inr (by simp [h1]))⟩
      | none =>
        cases h2 : s.files (pd ++ ["templates", f]) with
        | none => exact ⟨s, seedStep_skip (Or.inl h2)⟩
        | some c => exact ⟨_, seedStep_write h2 h1 hnef⟩
    obtain ⟨s1, hs1⟩ := hstep
    obtain ⟨out, hout⟩ := ih s1 (fun g hg => hne g (List.mem_cons_of_mem _ hg))
    exact ⟨out, by simp [seedLoop, hs1, hout]⟩

/-- The main copy loop completes whenever, for each file, the source file
exists, or the template is missing, or the template path differs from the
target path — the only way to raise is the template-fallback self-copy. -/
theorem copyLoop_progress (sd td pd : FPath) (names : List String) (s : FS)
    (hnodup : names.Nodup)
    (hne : ∀ g ∈ names, sd ++ [g] ≠ td ++ [g])
    (hgood : ∀ g ∈ names, s.files (sd ++ [g]) = none →
       s.files (pd ++ ["templates", g]) = none ∨ pd ++ ["templates", g] ≠ td ++ [g]) :
    ∃ out, copyLoop sd td pd names s = .ok out := by
  induction names generalizing s with
  | nil => exact ⟨s, rfl⟩
  | cons f rest ih =>
    have hnef := hne f (List.mem_cons_self f rest)
    have hfr : f ∉ rest := (List.nodup_cons.mp hnodup).1
    have hstep : ∃ s1, copyStep sd td pd f s = .ok s1 ∧
        (s1 = s ∨ ∃ c, s1 = s.write (td ++ [f]) c) := by
      cases h1 : s.files (sd ++ [f]) with
      | some c => exact ⟨_, copyStep_src hnef h1, Or.inr ⟨c, rfl⟩⟩
      | none =>
        cases h2 : s.files (pd ++ ["templates", f]) with
        | none => exact ⟨s, copyStep_none hnef h1 h2, Or.inl rfl⟩
        | some c =>
          rcases hgood f (List.mem_cons_self f rest) h1 with h3 | h3
          · rw [h2] at h3
            exact Option.noConfusion h3
          · exact ⟨_, copyStep_tmpl hnef h1 h2 h3, Or.inr ⟨c, rfl⟩⟩
    obtain ⟨s1, hs1, hshape⟩ := hstep
    have hrest : ∀ g ∈ rest, s1.files (sd ++ [g]) = none →
        s1.files (pd ++ ["templates", g]) = none ∨ pd ++ ["templates", g] ≠ td ++ [g] := by
      intro g hg
      have hgf : g ≠ f := fun he => hfr (he ▸ hg)
      have hng : ∀ x : FPath, x ++ [g] ≠ td ++ [f] := by
        intro x he
        have h4 : lastSeg (x ++ [g]) = lastSeg (td ++ [f]) := by rw [he]
        rw [lastSeg_append_single, lastSeg_append_single] at h4
        exact hgf h4
      have hng2 : pd ++ ["templates", g] ≠ td ++ [f] := by
        have := hng (pd ++ ["templates"])
        simpa [List.append_assoc] using this
      rcases hshape with h1 | ⟨c, h1⟩ <;> subst h1
      · exact hgood g (List.mem_cons_of_mem _ hg)
      · rw [FS.write_files_ne _ _ _ _ (hng sd), FS.write_files_ne _ _ _ _ hng2]
        exact hgood g (List.mem_cons_of_mem _ hg)
    obtain ⟨out, hout⟩ := ih s1 (List.nodup_cons.mp hnodup).2
      (fun g hg => hne g (List.mem_cons_of_mem _ hg)) hrest
    exact ⟨out, by simp [copyLoop, hs1, hout]⟩

/-- C10: when the source branch directory is missing and its final segment
is `main`, `copy_source_files` creates it and seeds it from each existing
template before copying into the target branch directory (so both the
seeded source file and the target file end up with the template content);
for any other missing source directory, no directory is created at all and
each file instead falls back per-file to its template. -/
theorem c10_first_time_main (sd td pd : FPath) (s : FS) (r : FsResult)
    (hr : copy_source_files sd td pd s = r)
    (hmiss : s.dirExists sd = false) (hsdtd : sd ≠ td) :
    (lastSeg sd = "main" →
       sd ∈ (exState r).dirs ∧
       ∀ f ∈ files_to_copy,
         s.files (pd ++ ["templates", f]) ≠ none →
         s.files (sd ++ [f]) = none →
         (exState r).files (sd ++ [f]) = s.files (pd ++ ["templates", f]) ∧
         (exState r).files (td ++ [f]) = s.files (pd ++ ["templates", f])) ∧
    (lastSeg sd ≠ "main" →
       (exState r).dirs = s.dirs ∧
       ((∀ g ∈ files_to_copy, s.files (sd ++ [g]) = none) →
        (∀ g ∈ files_to_copy, pd ++ ["templates", g] ≠ td ++ [g]) →
        ∀ f ∈ files_to_copy,
          s.files (pd ++ ["templates", f]) ≠ none →
          (exState r).files (td ++ [f]) = s.files (pd ++ ["templates", f]))) := by
  have hne_copy : ∀ g : String, sd ++ [g] ≠ td ++ [g] :=
    fun g he => hsdtd (append_single_right_cancel he)
  have hnodup : files_to_copy.Nodup := by decide
  constructor
  · intro hmain
    have hne_seed : ∀ g : String, pd ++ ["templates", g] ≠ sd ++ [g] := by
      intro g he
      have h2 : (pd ++ ["templates"]) ++ [g] = sd ++ [g] := by
        simpa [List.append_assoc] using he
      have h3 := append_single_right_cancel h2
      rw [← h3, lastSeg_append_single] at hmain
      exact absurd hmain (by decide)
    have hsd0 : sd ≠ [] := by
      intro h
      rw [h] at hmain
      exact absurd hmain (by decide)
    have hcond : ¬ s.dirExists sd = true ∧ lastSeg sd = "main" := ⟨by simp [hmiss], hmain⟩
    obtain ⟨out1, hseed⟩ := seedLoop_progress sd pd files_to_copy (s.mkdirAll sd)
      (fun g _ => hne_seed g)
    have ⟨hps, hpfr⟩ := seedLoop_post sd pd files_to_copy (s.mkdirAll sd) out1 hseed
      hnodup (fun g _ => hne_seed g)
    simp only [FS.mkdirAll_files] at hps hpfr
    have htpfr : ∀ g ∈ files_to_copy, out1.files (pd ++ ["templates", g])
        = s.files (pd ++ ["templates", g]) := by
      intro g hg
      refine hpfr _ ?_
      intro h hh he
      by_cases hgh : h = g
      · subst hgh
        exact hne_seed h he
      · have h5 : pd ++ ["templates", g] = (pd ++ ["templates"]) ++ [g] := by
          simp
        have h4 : lastSeg (pd ++ ["templates", g]) = lastSeg (sd ++ [h]) := by rw [he]
        rw [h5, lastSeg_append_single, lastSeg_append_single] at h4
        exact hgh h4.symm
    have hgood : ∀ g ∈ files_to_copy, out1.files (sd ++ [g]) = none →
        out1.files (pd ++ ["templates", g]) = none
          ∨ pd ++ ["templates", g] ≠ td ++ [g] := by
      intro g hg hnone
      rw [hps g hg] at hnone
      have h12 : s.files (sd ++ [g]) = none ∧ s.files (pd ++ ["templates", g]) = none := by
        cases hx : s.files (sd ++ [g]) <;> cases hy : s.files (pd ++ ["templates", g]) <;>
          simp_all [Option.or]
      exact Or.inl (by rw [htpfr g hg]; exact h12.2)
    obtain ⟨out2, hloop⟩ := copyLoop_progress sd td pd files_to_copy out1 hnodup
      (fun g _ => hne_copy g) hgood
    have hcsf : copy_source_files sd td pd s = .ok out2 := by
      simp only [copy_source_files, if_pos hcond, hseed, hloop]
    rw [hcsf] at hr
    cases hr
    have ⟨hlp, hlfr⟩ := copyLoop_post sd td pd files_to_copy out1 out2 hloop hnodup
      (fun g _ => hne_copy g)
    constructor
    · have hd2 : out2.dirs = out1.dirs := by
        simpa using copyLoop_dirs _ _ _ _ _ _ hloop
      have hd1 : out1.dirs = (s.mkdirAll sd).dirs := by
        simpa using seedLoop_dirs _ _ _ _ _ hseed
      simp only [exState_ok, hd2, hd1]
      exact mkdirAll_of_mem_prefixes s sd sd (self_mem_prefixesOf sd hsd0)
    · intro f hf hA hB
      obtain ⟨c, hc⟩ := Option.ne_none_iff_exists'.mp hA
      have hsp1 : out1.files (sd ++ [f]) = some c := by
        rw [hps f hf, hB, hc]
        rfl
      have hsp2 : out2.files (sd ++ [f]) = some c := by
        rw [← hsp1]
        refine hlfr _ ?_
        intro h hh he
        by_cases hhf : h = f
        · subst hhf
          exact hne_copy h he
        · have h4 : lastSeg (sd ++ [f]) = lastSeg (td ++ [h]) := by rw [he]
          rw [lastSeg_append_single, lastSeg_append_single] at h4
          exact hhf h4.symm
      have htf : out2.files (td ++ [f]) = some c := by
        rw [hlp f hf, hsp1, htpfr f hf, hc]
        have htf1 : out1.files (td ++ [f]) = s.files (td ++ [f]) := by
          refine hpfr _ ?_
          intro h hh
          by_cases hhf : h = f
          · subst hhf
            exact fun he => hne_copy h he.symm
          · intro he
            have h4 : lastSeg (td ++ [f]) = lastSeg (sd ++ [h]) := by rw [he]
            rw [lastSeg_append_single, lastSeg_append_single] at h4
            exact hhf h4.symm
        rw [htf1]
        rfl
      rw [hc]
      exact ⟨by simpa using hsp2, by simpa using htf⟩
  · intro hmain
    have hcondn : ¬ (¬ s.dirExists sd = true ∧ lastSeg sd = "main") := by
      intro h
      exact hmain h.2
    constructor
    · exact csf_dirs_skip _ _ _ _ _ hr (Or.inr hmain)
    · intro hsrc hne2 f hf hA
      have hgood : ∀ g ∈ files_to_copy, s.files (sd ++ [g]) = none →
          s.files (pd ++ ["templates", g]) = none ∨ pd ++ ["templates", g] ≠ td ++ [g] :=
        fun g hg _ => Or.inr (hne2 g hg)
      obtain ⟨out, hloop⟩ := copyLoop_progress sd td pd files_to_copy s hnodup
        (fun g _ => hne_copy g) hgood
      have hcsf : copy_source_files sd td pd s = .ok out := by
        simp only [copy_source_files, if_neg hcondn, hloop]
      rw [hcsf] at hr
      cases hr
      have ⟨hlp, hlfr⟩ := copyLoop_post sd td pd files_to_copy s out hloop hnodup
        (fun g _ => hne_copy g)
      obtain ⟨c, hc⟩ := Option.ne_none_iff_exists'.mp hA
      rw [hc]
      have := hlp f hf
      rw [hsrc f hf, hc] at this
      simpa using this

theorem c10_first_time_main_witness :
    ["planning", "main"] ∈ (exState (copy_source_files ["planning", "main"]
        ["planning", "feature", "z"] ["planning"] fsSeed)).dirs ∧
    (exState (copy_source_files ["planning", "main"] ["planning", "feature", "z"]
        ["planning"] fsSeed)).files (["planning", "main"] ++ ["domain.md"])
      = fsSeed.files (["planning"] ++ ["templates", "domain.md"]) ∧
    (exState (copy_source_files ["planning", "main"] ["planning", "feature", "z"]
        ["planning"] fsSeed)).files (["planning", "feature", "z"] ++ ["domain.md"])
      = fsSeed.files (["planning"] ++ ["templates", "domain.md"]) := by
  have h := c10_first_time_main ["planning", "main"] ["planning", "feature", "z"]
    ["planning"] fsSeed _ rfl (by decide) (by decide)
  have h1 := h.1 (by decide)
  have h2 := h1.2 "domain.md" (by decide) (by decide) (by decide)
  exact ⟨h1.1, h2.1, h2.2⟩

/-! ## Replay lemmas for the init copy loops -/

theorem append_single_left_cancel {d : FPath} {n m : String} (h : d ++ [n] = d ++ [m]) :
    n = m := by
  have h2 := List.append_cancel_left h
  simpa using h2

theorem mkdir_mem (s : FS) (p q : FPath) (h : q ∈ s.dirs) : q ∈ (s.mkdir p).dirs := by
  simp only [FS.mkdir]
  split
  · exact h
  · exact List.mem_append_left _ h

theorem mkdir_id (s : FS) (p : FPath) (h : p ∈ s.dirs) : s.mkdir p = s := by
  cases s with
  | mk dirs files => simp [FS.mkdir, h]

theorem mkdir_sub (s : FS) (p d : FPath) (h : d ∈ (s.mkdir p).dirs) :
    d ∈ s.dirs ∨ d = p := by
  simp only [FS.mkdir] at h
  split at h
  · exact Or.inl h
  · rcases List.mem_append.mp h with h | h
    · exact Or.inl h
    · exact Or.inr (by simpa using h)

/-- A successful init copy loop leaves each destination holding exactly the
packaged template content. -/
theorem copyPkgList_ok_values (tmpl : String → Option Content) (names : List String)
    (d : FPath) (s s' : FS) (hr : copyPkgList tmpl names d s = .ok s')
    (hnodup : names.Nodup) :
    ∀ n ∈ names, ∃ c, tmpl n = some c ∧ s'.files (d ++ [n]) = some c := by
  induction names generalizing s with
  | nil => intro n hn; exact absurd hn (List.not_mem_nil n)
  | cons n rest ih =>
    simp only [copyPkgList] at hr
    cases htn : tmpl n with
    | none => rw [htn] at hr; exact Except.noConfusion hr
    | some c =>
      rw [htn] at hr
      have hfr : n ∉ rest := (List.nodup_cons.mp hnodup).1
      intro m hm
      rcases List.mem_cons.mp hm with hmn | hmr
      · subst hmn
        refine ⟨c, htn, ?_⟩
        have h2 := copyPkgList_files tmpl rest d _ _ hr (d ++ [m]) ?_
        · simp only [exState_ok] at h2
          rw [h2]
          simp
        · intro g hg he
          exact hfr ((append_single_left_cancel he) ▸ hg)
      · exact ih _ hr (List.nodup_cons.mp hnodup).2 m hmr

/-- Re-running an init copy loop on a state that already holds every
destination's packaged content succeeds and changes nothing. -/
theorem copyPkgList_stable (tmpl : String → Option Content) (names : List String)
    (d : FPath) (u : FS)
    (hvals : ∀ n ∈ names, ∃ c, tmpl n = some c ∧ u.files (d ++ [n]) = some c) :
    ∃ u', copyPkgList tmpl names d u = .ok u' ∧ u'.dirs = u.dirs ∧
      ∀ p, u'.files p = u.files p := by
  induction names generalizing u with
  | nil => exact ⟨u, rfl, rfl, fun p => rfl⟩
  | cons n rest ih =>
    obtain ⟨c, htn, hv⟩ := hvals n (List.mem_cons_self n rest)
    have hext := FS.write_self u (d ++ [n]) c hv
    have hvals2 : ∀ m ∈ rest, ∃ cm, tmpl m = some cm ∧
        (u.write (d ++ [n]) c).files (d ++ [m]) = some cm := by
      intro m hm
      obtain ⟨cm, htm, hvm⟩ := hvals m (List.mem_cons_of_mem _ hm)
      exact ⟨cm, htm, by rw [hext]; exact hvm⟩
    obtain ⟨u', hu', hud, huf⟩ := ih (u.write (d ++ [n]) c) hvals2
    refine ⟨u', by simp [copyPkgList, htn, hu'], by simpa using hud, ?_⟩
    intro p
    exact (huf p).trans (hext p)

/-- Re-running an init copy loop that aborted on a missing template aborts
at the same point, changing nothing relative to the first aborted run. -/
theorem copyPkgList_replay_err (tmpl : String → Option Content) (names : List String)
    (d : FPath) (s e u : FS) (hr : copyPkgList tmpl names d s = .error e)
    (hnodup : names.Nodup)
    (hud : u.dirs = e.dirs) (hu : ∀ p, u.files p = e.files p) :
    ∃ e', copyPkgList tmpl names d u = .error e' ∧ e'.dirs = e.dirs ∧
      ∀ p, e'.files p = e.files p := by
  induction names generalizing s u with
  | nil => exact Except.noConfusion hr
  | cons n rest ih =>
    simp only [copyPkgList] at hr ⊢
    cases htn : tmpl n with
    | none =>
      rw [htn] at hr
      cases hr
      exact ⟨u, rfl, hud, hu⟩
    | some c =>
      rw [htn] at hr
      have hfr : n ∉ rest := (List.nodup_cons.mp hnodup).1
      have hval : e.files (d ++ [n]) = some c := by
        have h2 := copyPkgList_files tmpl rest d _ _ hr (d ++ [n]) ?_
        · simp only [exState_error] at h2
          rw [h2]
          simp
        · intro g hg he
          exact hfr ((append_single_left_cancel he) ▸ hg)
      have hext := FS.write_self u (d ++ [n]) c (by rw [hu]; exact hval)
      obtain ⟨e', he', hed, hef⟩ := ih (s.write (d ++ [n]) c) (u.write (d ++ [n]) c)
        hr (List.nodup_cons.mp hnodup).2 (by simpa using hud)
        (fun p => (hext p).trans (hu p))
      exact ⟨e', he', hed, hef⟩

theorem mkdir_self (s : FS) (p : FPath) : p ∈ (s.mkdir p).dirs := by
  simp only [FS.mkdir]
  split
  · assumption
  · exact List.mem_append_right _ (by simp)

/-- The directory set of the state reached by a (possibly aborted) init
run, relative to the pre-run state: exactly the three created directories
are added. -/
theorem create_command_base_dirs (s : FS) :
    ["planning"] ∈ ((s.mkdirAll ["planning", "templates"]).mkdir ["docs"]).dirs ∧
    ["planning", "templates"] ∈ ((s.mkdirAll ["planning", "templates"]).mkdir ["docs"]).dirs ∧
    ["docs"] ∈ ((s.mkdirAll ["planning", "templates"]).mkdir ["docs"]).dirs ∧
    ∀ q ∈ s.dirs, q ∈ ((s.mkdirAll ["planning", "templates"]).mkdir ["docs"]).dirs := by
  refine ⟨?_, ?_, mkdir_self _ _, ?_⟩
  · exact mkdir_mem _ _ _ (mkdirAll_of_mem_prefixes s _ _ (by decide))
  · exact mkdir_mem _ _ _ (mkdirAll_of_mem_prefixes s _ _ (by decide))
  · intro q hq
    exact mkdir_mem _ _ _ (mkdirAll_mem s _ q hq)

/-- Re-running the two init mkdir calls on a state that already has the
three directories changes nothing. -/
theorem create_command_mkdirs_id (t : FS)
    (h1 : ["planning"] ∈ t.dirs) (h2 : ["planning", "templates"] ∈ t.dirs)
    (h3 : ["docs"] ∈ t.dirs) :
    (t.mkdirAll ["planning", "templates"]).mkdir ["docs"] = t := by
  rw [mkdirAll_id t _ ?_, mkdir_id t _ h3]
  intro q hq
  have hq2 : q = ["planning"] ∨ q = ["planning", "templates"] := by
    simpa [prefixesOf, List.range_succ] using hq
  rcases hq2 with h | h <;> subst h
  · exact h1
  · exact h2

/-- C1 (amended): running `init` twice never removes files — an immediate
second run returns the same exit code and leaves every directory and every
file exactly as the first run left them — and a single run never touches
any file outside its fixed write set (the agent file, the helper script
and the nine template destinations); within that write set, however, every
destination is unconditionally rewritten on each run, so only files
outside the write set are guaranteed to retain pre-existing content. -/
theorem c1_init_rewrite (pkg : Pkg) (a c : Bool) (s : FS) :
    ((create_command pkg a c ((create_command pkg a c s).2)).1
        = (create_command pkg a c s).1 ∧
     (create_command pkg a c ((create_command pkg a c s).2)).2.dirs
        = (create_command pkg a c s).2.dirs ∧
     ∀ p, (create_command pkg a c ((create_command pkg a c s).2)).2.files p
        = (create_command pkg a c s).2.files p) ∧
    (∀ p, p ∉ initTargets a → (create_command pkg a c s).2.files p = s.files p) := by
  by_cases hg : ¬ s.dirExists [".git"] ∧ ¬ c
  · have h1 : create_command pkg a c s = (1, s) := by
      simp only [create_command, if_pos hg]
    have h3 : create_command pkg a c ((create_command pkg a c s).2) = (1, s) := by
      rw [h1]
      exact h1
    exact ⟨⟨by rw [h3, h1], by rw [h3, h1], fun p => by rw [h3, h1]⟩,
      fun p hp => by rw [h1]⟩
  · obtain ⟨hpl1, hpt1, hdoc1, hmono1⟩ := create_command_base_dirs s
    have hgOr : s.dirExists [".git"] = true ∨ c = true := by
      by_cases hd : s.dirExists [".git"] = true
      · exact Or.inl hd
      · right
        by_contra hc
        exact hg ⟨by simpa using hd, by simpa using hc⟩
    have hguard2 : ∀ t : FS, (∀ q ∈ s.dirs, q ∈ t.dirs) →
        ¬ (¬ t.dirExists [".git"] ∧ ¬ c) := by
      rintro t hmono ⟨ha', hc'⟩
      rcases hgOr with hd | hc2
      · have h5 : [".git"] ∈ t.dirs := hmono _ (by simpa [FS.dirExists] using hd)
        exact ha' (by simpa [FS.dirExists] using h5)
      · exact hc' (by simpa using hc2)
    have hmem_agent : ([agentName a] : FPath) ∈ initTargets a := by
      unfold initTargets
      exact List.mem_append_left _ (List.mem_append_left _ (by simp))
    have hmem_script : (["planning", "new_project.py"] : FPath) ∈ initTargets a := by
      unfold initTargets
      exact List.mem_append_left _ (List.mem_append_left _ (by simp))
    have hmem_feat : ∀ n ∈ feature_templates,
        (["planning", "templates"] ++ [n] : FPath) ∈ initTargets a := by
      intro n hn
      unfold initTargets
      exact List.mem_append_left _
        (List.mem_append_right _ (List.mem_map.mpr ⟨n, hn, rfl⟩))
    have hmem_gen : ∀ n ∈ general_templates,
        (["docs"] ++ [n] : FPath) ∈ initTargets a := by
      intro n hn
      unfold initTargets
      exact List.mem_append_right _ (List.mem_map.mpr ⟨n, hn, rfl⟩)
    cases htm : pkg.tmpl (agentName a) with
    | none =>
      have h1 : create_command pkg a c s
          = (1, (s.mkdirAll ["planning", "templates"]).mkdir ["docs"]) := by
        simp only [create_command, if_neg hg, htm]
      have hg2 := hguard2 ((s.mkdirAll ["planning", "templates"]).mkdir ["docs"]) hmono1
      have hid := create_command_mkdirs_id _ hpl1 hpt1 hdoc1
      have h2 : create_command pkg a c ((s.mkdirAll ["planning", "templates"]).mkdir ["docs"])
          = (1, (s.mkdirAll ["planning", "templates"]).mkdir ["docs"]) := by
        simp only [create_command, if_neg hg2, hid, htm]
      have h3 : create_command pkg a c ((create_command pkg a c s).2)
          = (1, (s.mkdirAll ["planning", "templates"]).mkdir ["docs"]) := by
        rw [h1]
        exact h2
      exact ⟨⟨by rw [h3, h1], by rw [h3, h1], fun p => by rw [h3, h1]⟩,
        fun p hp => by rw [h1]; rfl⟩
    | some lines =>
      cases hF : copyPkgList pkg.tmpl feature_templates ["planning", "templates"]
          ((((s.mkdirAll ["planning", "templates"]).mkdir ["docs"]).write [agentName a]
              (stripTitle lines)).write ["planning", "new_project.py"] pkg.script) with
      | error e =>
        have h1 : create_command pkg a c s = (1, e) := by
          simp only [create_command, if_neg hg, htm, hF]
        have hed : e.dirs = ((s.mkdirAll ["planning", "templates"]).mkdir ["docs"]).dirs := by
          simpa using copyPkgList_dirs _ _ _ _ _ hF
        have hagent : e.files [agentName a] = some (stripTitle lines) := by
          have h5 := copyPkgList_files _ _ _ _ _ hF [agentName a] (by intro n hn; simp)
          simpa using h5
        have hscript : e.files ["planning", "new_project.py"] = some pkg.script := by
          have h5 := copyPkgList_files _ _ _ _ _ hF ["planning", "new_project.py"]
            (by intro n hn; simp)
          simpa using h5
        have hg2 := hguard2 e (fun q hq => by rw [hed]; exact hmono1 q hq)
        have hid2 := create_command_mkdirs_id e (by rw [hed]; exact hpl1)
          (by rw [hed]; exact hpt1) (by rw [hed]; exact hdoc1)
        have hscript2 : (e.write [agentName a] (stripTitle lines)).files
            ["planning", "new_project.py"] = some pkg.script := by
          rw [FS.write_files_ne _ _ _ _ (by simp)]
          exact hscript
        have huext : ∀ p, ((e.write [agentName a] (stripTitle lines)).write
            ["planning", "new_project.py"] pkg.script).files p = e.files p := by
          intro p
          rw [FS.write_self _ _ _ hscript2 p, FS.write_self _ _ _ hagent p]
        obtain ⟨e', hE', hed', hef'⟩ := copyPkgList_replay_err pkg.tmpl feature_templates
          ["planning", "templates"] _ e
          ((e.write [agentName a] (stripTitle lines)).write
            ["planning", "new_project.py"] pkg.script)
          hF (by decide) rfl huext
        have h2 : create_command pkg a c e = (1, e') := by
          simp only [create_command, if_neg hg2, hid2, htm, hE']
        have h3 : create_command pkg a c ((create_command pkg a c s).2) = (1, e') := by
          rw [h1]
          exact h2
        refine ⟨⟨by rw [h3, h1], by rw [h3, h1]; exact hed', fun p => by rw [h3, h1]; exact hef' p⟩, ?_⟩
        intro p hp
        have hpa : p ≠ [agentName a] := fun he => hp (he ▸ hmem_agent)
        have hpscript : p ≠ ["planning", "new_project.py"] := fun he => hp (he ▸ hmem_script)
        have hpfeat : ∀ n ∈ feature_templates, p ≠ ["planning", "templates"] ++ [n] :=
          fun n hn he => hp (he ▸ hmem_feat n hn)
        have hpgen : ∀ n ∈ general_templates, p ≠ ["docs"] ++ [n] :=
          fun n hn he => hp (he ▸ hmem_gen n hn)
        rw [h1]
        have h5 := copyPkgList_files _ _ _ _ _ hF p
          hpfeat
        simp only [exState_error] at h5
        rw [h5]
        simp [hpa, hpscript]
      | ok s4 =>
        have hs4vals := copyPkgList_ok_values _ _ _ _ _ hF (by decide)
        cases hG : copyPkgList pkg.tmpl general_templates ["docs"] s4 with
        | error e =>
          have h1 : create_command pkg a c s = (1, e) := by
            simp only [create_command, if_neg hg, htm, hF, hG]
          have hed : e.dirs
              = ((s.mkdirAll ["planning", "templates"]).mkdir ["docs"]).dirs := by
            have h5 : e.dirs = s4.dirs := by simpa using copyPkgList_dirs _ _ _ _ _ hG
            have h6 : s4.dirs
                = ((s.mkdirAll ["planning", "templates"]).mkdir ["docs"]).dirs := by
              simpa using copyPkgList_dirs _ _ _ _ _ hF
            rw [h5, h6]
          have hagent : e.files [agentName a] = some (stripTitle lines) := by
            have h5 := copyPkgList_files _ _ _ _ _ hG [agentName a] (by intro n hn; simp)
            have h6 := copyPkgList_files _ _ _ _ _ hF [agentName a] (by intro n hn; simp)
            simp only [exState_error] at h5
            simp only [exState_ok] at h6
            rw [h5, h6]
            simp
          have hscript : e.files ["planning", "new_project.py"] = some pkg.script := by
            have h5 := copyPkgList_files _ _ _ _ _ hG ["planning", "new_project.py"]
              (by intro n hn; simp)
            have h6 := copyPkgList_files _ _ _ _ _ hF ["planning", "new_project.py"]
              (by intro n hn; simp)
            simp only [exState_error] at h5
            simp only [exState_ok] at h6
            rw [h5, h6]
            simp
          have hfeats : ∀ n ∈ feature_templates, ∃ cn, pkg.tmpl n = some cn ∧
              e.files (["planning", "templates"] ++ [n]) = some cn := by
            intro n hn
            obtain ⟨cn, htn, hvn⟩ := hs4vals n hn
            refine ⟨cn, htn, ?_⟩
            have h5 := copyPkgList_files _ _ _ _ _ hG (["planning", "templates"] ++ [n])
              (by intro m hm; simp)
            simp only [exState_error] at h5
            rw [h5]
            exact hvn
          have hg2 := hguard2 e (fun q hq => by rw [hed]; exact hmono1 q hq)
          have hid2 := create_command_mkdirs_id e (by rw [hed]; exact hpl1)
            (by rw [hed]; exact hpt1) (by rw [hed]; exact hdoc1)
          have hscript2 : (e.write [agentName a] (stripTitle lines)).files
              ["planning", "new_project.py"] = some pkg.script := by
            rw [FS.write_files_ne _ _ _ _ (by simp)]
            exact hscript
          have huext : ∀ p, ((e.write [agentName a] (stripTitle lines)).write
              ["planning", "new_project.py"] pkg.script).files p = e.files p := by
            intro p
            rw [FS.write_self _ _ _ hscript2 p, FS.write_self _ _ _ hagent p]
          obtain ⟨u2, hU2, hu2d, hu2f⟩ := copyPkgList_stable pkg.tmpl feature_templates
            ["planning", "templates"]
            ((e.write [agentName a] (stripTitle lines)).write
              ["planning", "new_project.py"] pkg.script)
            (fun n hn => by
              obtain ⟨cn, htn, hvn⟩ := hfeats n hn
              exact ⟨cn, htn, by rw [huext]; exact hvn⟩)
          obtain ⟨e', hE', hed', hef'⟩ := copyPkgList_replay_err pkg.tmpl general_templates
            ["docs"] s4 e u2 hG (by decide) hu2d (fun p => (hu2f p).trans (huext p))
          have h2 : create_command pkg a c e = (1, e') := by
            simp only [create_command, if_neg hg2, hid2, htm, hU2, hE']
          have h3 : create_command pkg a c ((create_command pkg a c s).2) = (1, e') := by
            rw [h1]
            exact h2
          refine ⟨⟨by rw [h3, h1], by rw [h3, h1]; exact hed', fun p => by rw [h3, h1]; exact hef' p⟩, ?_⟩
          intro p hp
          have hpa : p ≠ [agentName a] := fun he => hp (he ▸ hmem_agent)
          have hpscript : p ≠ ["planning", "new_project.py"] := fun he => hp (he ▸ hmem_script)
          have hpfeat : ∀ n ∈ feature_templates, p ≠ ["planning", "templates"] ++ [n] :=
            fun n hn he => hp (he ▸ hmem_feat n hn)
          have hpgen : ∀ n ∈ general_templates, p ≠ ["docs"] ++ [n] :=
            fun n hn he => hp (he ▸ hmem_gen n hn)
          rw [h1]
          have h5 := copyPkgList_files _ _ _ _ _ hG p
            hpgen
          have h6 := copyPkgList_files _ _ _ _ _ hF p
            hpfeat
          simp only [exState_error] at h5
          simp only [exState_ok] at h6
          rw [h5, h6]
          simp [hpa, hpscript]
        | ok s5 =>
          have hs5vals := copyPkgList_ok_values _ _ _ _ _ hG (by decide)
          have h1 : create_command pkg a c s = (0, s5) := by
            simp only [create_command, if_neg hg, htm, hF, hG]
          have hed : s5.dirs
              = ((s.mkdirAll ["planning", "templates"]).mkdir ["docs"]).dirs := by
            have h5 : s5.dirs = s4.dirs := by simpa using copyPkgList_dirs _ _ _ _ _ hG
            have h6 : s4.dirs
                = ((s.mkdirAll ["planning", "templates"]).mkdir ["docs"]).dirs := by
              simpa using copyPkgList_dirs _ _ _ _ _ hF
            rw [h5, h6]
          have hagent : s5.files [agentName a] = some (stripTitle lines) := by
            have h5 := copyPkgList_files _ _ _ _ _ hG [agentName a] (by intro n hn; simp)
            have h6 := copyPkgList_files _ _ _ _ _ hF [agentName a] (by intro n hn; simp)
            simp only [exState_ok] at h5 h6
            rw [h5, h6]
            simp
          have hscript : s5.files ["planning", "new_project.py"] = some pkg.script := by
            have h5 := copyPkgList_files _ _ _ _ _ hG ["planning", "new_project.py"]
              (by intro n hn; simp)
            have h6 := copyPkgList_files _ _ _ _ _ hF ["planning", "new_project.py"]
              (by intro n hn; simp)
            simp only [exState_ok] at h5 h6
            rw [h5, h6]
            simp
          have hfeats : ∀ n ∈ feature_templates, ∃ cn, pkg.tmpl n = some cn ∧
              s5.files (["planning", "templates"] ++ [n]) = some cn := by
            intro n hn
            obtain ⟨cn, htn, hvn⟩ := hs4vals n hn
            refine ⟨cn, htn, ?_⟩
            have h5 := copyPkgList_files _ _ _ _ _ hG (["planning", "templates"] ++ [n])
              (by intro m hm; simp)
            simp only [exState_ok] at h5
            rw [h5]
            exact hvn
          have hg2 := hguard2 s5 (fun q hq => by rw [hed]; exact hmono1 q hq)
          have hid2 := create_command_mkdirs_id s5 (by rw [hed]; exact hpl1)
            (by rw [hed]; exact hpt1) (by rw [hed]; exact hdoc1)
          have hscript2 : (s5.write [agentName a] (stripTitle lines)).files
              ["planning", "new_project.py"] = some pkg.script := by
            rw [FS.write_files_ne _ _ _ _ (by simp)]
            exact hscript
          have huext : ∀ p, ((s5.write [agentName a] (stripTitle lines)).write
              ["planning", "new_project.py"] pkg.script).files p = s5.files p := by
            intro p
            rw [FS.write_self _ _ _ hscript2 p, FS.write_self _ _ _ hagent p]
          obtain ⟨u2, hU2, hu2d, hu2f⟩ := copyPkgList_stable pkg.tmpl feature_templates
            ["planning", "templates"]
            ((s5.write [agentName a] (stripTitle lines)).write
              ["planning", "new_project.py"] pkg.script)
            (fun n hn => by
              obtain ⟨cn, htn, hvn⟩ := hfeats n hn
              exact ⟨cn, htn, by rw [huext]; exact hvn⟩)
          obtain ⟨u3, hU3, hu3d, hu3f⟩ := copyPkgList_stable pkg.tmpl general_templates
            ["docs"] u2
            (fun n hn => by
              obtain ⟨cn, htn, hvn⟩ := hs5vals n hn
              exact ⟨cn, htn, by rw [hu2f, huext]; exact hvn⟩)
          have h2 : create_command pkg a c s5 = (0, u3) := by
            simp only [create_command, if_neg hg2, hid2, htm, hU2, hU3]
          have h3 : create_command pkg a c ((create_command pkg a c s).2) = (0, u3) := by
            rw [h1]
            exact h2
          refine ⟨⟨by rw [h3, h1], ?_, ?_⟩, ?_⟩
          · rw [h3, h1]
            show u3.dirs = s5.dirs
            rw [hu3d, hu2d]
            rfl
          · intro p
            rw [h3, h1]
            show u3.files p = s5.files p
            rw [hu3f p, hu2f p, huext p]
          · intro p hp
            have hpa : p ≠ [agentName a] := fun he => hp (he ▸ hmem_agent)
            have hpscript : p ≠ ["planning", "new_project.py"] :=
              fun he => hp (he ▸ hmem_script)
            have hpfeat : ∀ n ∈ feature_templates, p ≠ ["planning", "templates"] ++ [n] :=
              fun n hn he => hp (he ▸ hmem_feat n hn)
            have hpgen : ∀ n ∈ general_templates, p ≠ ["docs"] ++ [n] :=
              fun n hn he => hp (he ▸ hmem_gen n hn)
            rw [h1]
            have h5 := copyPkgList_files _ _ _ _ _ hG p
              hpgen
            have h6 := copyPkgList_files _ _ _ _ _ hF p
              hpfeat
            simp only [exState_ok] at h5 h6
            rw [h5, h6]
            simp [hpa, hpscript]

theorem c1_init_rewrite_witness :
    (create_command pkgDemo false true ((create_command pkgDemo false true fsFresh).2)).1
      = (create_command pkgDemo false true fsFresh).1 ∧
    (create_command pkgDemo false true fsFresh).2.files ["README.md"]
      = fsFresh.files ["README.md"] :=
  ⟨(c1_init_rewrite pkgDemo false true fsFresh).1.1,
   (c1_init_rewrite pkgDemo false true fsFresh).2 ["README.md"] (by decide)⟩

/-! ## Idempotence lemmas for the scaffolder -/

/-- When source and target coincide, every iteration of the copy loop is
skipped. -/
theorem copyLoop_same (sd td pd : FPath) (names : List String) (s : FS) (h : sd = td) :
    copyLoop sd td pd names s = .ok s := by
  induction names with
  | nil => rfl
  | cons f rest ih =>
    have hstep : copyStep sd td pd f s = .ok s := by
      simp [copyStep, h]
    simp [copyLoop, hstep, ih]

/-- The branches a `create_template_files` iteration can take. -/
theorem tmplStep_char (td pd : FPath) (f : String) (s s1 : FS)
    (hstep : tmplStep td pd f s = .ok s1) :
    (s.files (td ++ [f]) = none ∧
       ∃ c, s.files (pd ++ ["templates", f]) = some c ∧ s1 = s.write (td ++ [f]) c) ∨
    ((s.files (td ++ [f]) ≠ none ∨ s.files (pd ++ ["templates", f]) = none) ∧ s1 = s) := by
  cases h1 : s.files (td ++ [f]) with
  | some c =>
    have h2 : tmplStep td pd f s = .ok s := by simp [tmplStep, FS.fileExists, h1]
    rw [h2] at hstep
    injection hstep with h
    exact Or.inr ⟨Or.inl (by simp [h1]), h.symm⟩
  | none =>
    cases h2 : s.files (pd ++ ["templates", f]) with
    | none =>
      have h3 : tmplStep td pd f s = .ok s := by simp [tmplStep, FS.fileExists, h1, h2]
      rw [h3] at hstep
      injection hstep with h
      exact Or.inr ⟨Or.inr rfl, h.symm⟩
    | some c =>
      have hne : pd ++ ["templates", f] ≠ td ++ [f] := by
        intro he
        rw [he, h1] at h2
        exact Option.noConfusion h2
      have h3 : tmplStep td pd f s = .ok (s.write (td ++ [f]) c) := by
        simp [tmplStep, FS.fileExists, h1, h2, copy2_ok hne h2]
      rw [h3] at hstep
      injection hstep with h
      exact Or.inl ⟨rfl, c, rfl, h.symm⟩

/-- Re-running `create_template_files` on any state that agrees with the
first run's final state on all targets and templates is the identity: every
iteration skips. -/
theorem tmplLoop_idem (td pd : FPath) (names : List String) (w s2 : FS)
    (hr : tmplLoop td pd names w = .ok s2) (hnodup : names.Nodup) (t : FS)
    (htf : ∀ g ∈ names, t.files (td ++ [g]) = s2.files (td ++ [g]))
    (htp : ∀ g ∈ names, t.files (pd ++ ["templates", g]) = s2.files (pd ++ ["templates", g])) :
    tmplLoop td pd names t = .ok t := by
  induction names generalizing w with
  | nil => rfl
  | cons f rest ih =>
    simp only [tmplLoop] at hr
    cases hstep : tmplStep td pd f w with
    | error e => rw [hstep] at hr; exact Except.noConfusion hr
    | ok w1 =>
      rw [hstep] at hr
      have hfr : f ∉ rest := (List.nodup_cons.mp hnodup).1
      have hfr2 : ∀ p : FPath, p.getLast? = some f → ∀ g ∈ rest, p ≠ td ++ [g] := by
        intro p hp g hg he
        rw [he, getLast_append_single] at hp
        exact hfr ((Option.some_inj.mp hp) ▸ hg)
      have hs2tf : s2.files (td ++ [f]) = w1.files (td ++ [f]) := by
        have h5 := tmplLoop_files td pd rest w1 _ hr (td ++ [f])
          (fun g hg he => hfr (by
            rw [getLast_append_single] at he
            exact (Option.some_inj.mp he) ▸ hg))
        simpa using h5
      have hs2tp : s2.files (pd ++ ["templates", f]) = w1.files (pd ++ ["templates", f]) := by
        have h5 := tmplLoop_files td pd rest w1 _ hr (pd ++ ["templates", f])
          (fun g hg he => hfr (by
            have h6 : pd ++ ["templates", f] = (pd ++ ["templates"]) ++ [f] := by simp
            rw [h6, getLast_append_single] at he
            exact (Option.some_inj.mp he) ▸ hg))
        simpa using h5
      have hskip : tmplStep td pd f t = .ok t := by
        rcases tmplStep_char td pd f w w1 hstep with ⟨hn, c, hc, h1⟩ | ⟨hor, h1⟩
        · have htft : t.files (td ++ [f]) = some c := by
            rw [htf f (List.mem_cons_self f rest), hs2tf, h1]
            simp
          simp [tmplStep, FS.fileExists, htft]
        · subst h1
          rcases hor with hsome | hnone
          · have htft : t.files (td ++ [f]) ≠ none := by
              rw [htf f (List.mem_cons_self f rest), hs2tf]
              exact hsome
            have : t.fileExists (td ++ [f]) = true := by
              simpa [FS.fileExists, Option.isSome_iff_ne_none] using htft
            simp [tmplStep, this]
          · have htpt : t.files (pd ++ ["templates", f]) = none := by
              rw [htp f (List.mem_cons_self f rest), hs2tp]
              exact hnone
            simp [tmplStep, FS.fileExists, htpt]
      have hrec := ih w1 hr (List.nodup_cons.mp hnodup).2
        (fun g hg => htf g (List.mem_cons_of_mem _ hg))
        (fun g hg => htp g (List.mem_cons_of_mem _ hg))
      simp [tmplLoop, hskip, hrec]

/-- Re-running the `copy_source_files` loop on any state that agrees with
the first successful run's final state on all involved paths succeeds and
changes nothing: each file is re-copied with its existing content or
skipped exactly as before. -/
theorem copyLoop_idem (sd td pd : FPath) (names : List String) (w s2 : FS)
    (hr : copyLoop sd td pd names w = .ok s2) (hnodup : names.Nodup)
    (hne : ∀ g ∈ names, sd ++ [g] ≠ td ++ [g]) (t : FS)
    (hsp : ∀ g ∈ names, t.files (sd ++ [g]) = s2.files (sd ++ [g]))
    (htp : ∀ g ∈ names, t.files (pd ++ ["templates", g]) = s2.files (pd ++ ["templates", g]))
    (htf : ∀ g ∈ names, t.files (td ++ [g]) = s2.files (td ++ [g])) :
    ∃ t', copyLoop sd td pd names t = .ok t' ∧ (∀ p, t'.files p = t.files p) ∧
      t'.dirs = t.dirs := by
  induction names generalizing w t with
  | nil => exact ⟨t, rfl, fun _ => rfl, rfl⟩
  | cons f rest ih =>
    simp only [copyLoop] at hr
    cases hstep : copyStep sd td pd f w with
    | error e => rw [hstep] at hr; exact Except.noConfusion hr
    | ok w1 =>
      rw [hstep] at hr
      have hnef := hne f (List.mem_cons_self f rest)
      have hfr : f ∉ rest := (List.nodup_cons.mp hnodup).1
      have hmemf := List.mem_cons_self f rest
      have hWsp : s2.files (sd ++ [f]) = w1.files (sd ++ [f]) := by
        have h5 := copyLoop_files sd td pd rest w1 _ hr (sd ++ [f])
          (fun g hg => by
            rw [getLast_append_single]
            intro he
            exact hfr ((Option.some_inj.mp he) ▸ hg))
        simpa using h5
      have hWtp : s2.files (pd ++ ["templates", f]) = w1.files (pd ++ ["templates", f]) := by
        have h5 := copyLoop_files sd td pd rest w1 _ hr (pd ++ ["templates", f])
          (fun g hg => by
            have h6 : pd ++ ["templates", f] = (pd ++ ["templates"]) ++ [f] := by simp
            rw [h6, getLast_append_single]
            intro he
            exact hfr ((Option.some_inj.mp he) ▸ hg))
        simpa using h5
      have hWtf : s2.files (td ++ [f]) = w1.files (td ++ [f]) := by
        have h5 := copyLoop_files sd td pd rest w1 _ hr (td ++ [f])
          (fun g hg => by
            rw [getLast_append_single]
            intro he
            exact hfr ((Option.some_inj.mp he) ▸ hg))
        simpa using h5
      have hdiff : ∀ g ∈ rest, ∀ x : FPath, x ++ [g] ≠ td ++ [f] := by
        intro g hg x he
        have h4 : lastSeg (x ++ [g]) = lastSeg (td ++ [f]) := by rw [he]
        rw [lastSeg_append_single, lastSeg_append_single] at h4
        exact hfr (h4 ▸ hg)
      rcases copyStep_char sd td pd f w w1 hstep hnef with
        ⟨c, hcw, h1⟩ | ⟨hnw, c, hcw, hne3, h1⟩ | ⟨hnw, hnw2, h1⟩
      · have htsp : t.files (sd ++ [f]) = some c := by
          rw [hsp f hmemf, hWsp, h1, FS.write_files_ne _ _ _ _ hnef]
          exact hcw
        have httf : t.files (td ++ [f]) = some c := by
          rw [htf f hmemf, hWtf, h1]
          simp
        have hstep2 : copyStep sd td pd f t = .ok (t.write (td ++ [f]) c) :=
          copyStep_src hnef htsp
        have hext := FS.write_self t (td ++ [f]) c httf
        obtain ⟨t', hT', hT'f, hT'd⟩ := ih w1 hr (List.nodup_cons.mp hnodup).2
          (fun g hg => hne g (List.mem_cons_of_mem _ hg)) (t.write (td ++ [f]) c)
          (fun g hg => by rw [hext]; exact hsp g (List.mem_cons_of_mem _ hg))
          (fun g hg => by rw [hext]; exact htp g (List.mem_cons_of_mem _ hg))
          (fun g hg => by rw [hext]; exact htf g (List.mem_cons_of_mem _ hg))
        exact ⟨t', by simp [copyLoop, hstep2, hT'], fun p => (hT'f p).trans (hext p), hT'd⟩
      · have htsp : t.files (sd ++ [f]) = none := by
          rw [hsp f hmemf, hWsp, h1, FS.write_files_ne _ _ _ _ hnef]
          exact hnw
        have http : t.files (pd ++ ["templates", f]) = some c := by
          rw [htp f hmemf, hWtp, h1, FS.write_files_ne _ _ _ _ hne3]
          exact hcw
        have httf : t.files (td ++ [f]) = some c := by
          rw [htf f hmemf, hWtf, h1]
          simp
        have hstep2 := copyStep_tmpl hnef htsp http hne3
        have hext := FS.write_self t (td ++ [f]) c httf
        obtain ⟨t', hT', hT'f, hT'd⟩ := ih w1 hr (List.nodup_cons.mp hnodup).2
          (fun g hg => hne g (List.mem_cons_of_mem _ hg)) (t.write (td ++ [f]) c)
          (fun g hg => by rw [hext]; exact hsp g (List.mem_cons_of_mem _ hg))
          (fun g hg => by rw [hext]; exact htp g (List.mem_cons_of_mem _ hg))
          (fun g hg => by rw [hext]; exact htf g (List.mem_cons_of_mem _ hg))
        exact ⟨t', by simp [copyLoop, hstep2, hT'], fun p => (hT'f p).trans (hext p), hT'd⟩
      · have htsp : t.files (sd ++ [f]) = none := by
          rw [hsp f hmemf, hWsp, h1]
          exact hnw
        have http : t.files (pd ++ ["templates", f]) = none := by
          rw [htp f hmemf, hWtp, h1]
          exact hnw2
        have hstep2 := copyStep_none hnef htsp http
        subst h1
        obtain ⟨t', hT', hT'f, hT'd⟩ := ih w1 hr (List.nodup_cons.mp hnodup).2
          (fun g hg => hne g (List.mem_cons_of_mem _ hg)) t
          (fun g hg => hsp g (List.mem_cons_of_mem _ hg))
          (fun g hg => htp g (List.mem_cons_of_mem _ hg))
          (fun g hg => htf g (List.mem_cons_of_mem _ hg))
        exact ⟨t', by simp [copyLoop, hstep2, hT'], hT'f, hT'd⟩

/-- C3: running the branch scaffolder twice for the same branch is
idempotent — if the first run succeeds, the second run also exits 0 and
leaves every directory and every file (in particular every file in the
branch directory) byte-identical to the first run's result. -/
theorem c3_scaffold_idempotent (br src : String) (s : FS)
    (h0 : (runNew br src s).1 = 0) :
    (runNew br src (runNew br src s).2).1 = 0 ∧
    (runNew br src (runNew br src s).2).2.dirs = (runNew br src s).2.dirs ∧
    ∀ p, (runNew br src (runNew br src s).2).2.files p = (runNew br src s).2.files p := by
  by_cases hbr : br = ""
  · simp [runNew, hbr] at h0
  · by_cases hpl : s.dirExists ["planning"] = true
    · have hplm : ¬ (¬ s.dirExists ["planning"] = true) := by simp [hpl]
      cases hcsf : copy_source_files ("planning" :: splitSlash src) (branchDir br)
          ["planning"] (s.mkdirAll (branchDir br)) with
      | error e =>
        exfalso
        simp only [runNew, if_neg hbr, if_neg hplm, hcsf] at h0
        simp at h0
      | ok s2 =>
        cases htl : tmplLoop (branchDir br) ["planning"] new_project_templates s2 with
        | error e =>
          exfalso
          simp only [runNew, if_neg hbr, if_neg hplm, hcsf, htl] at h0
          simp at h0
        | ok s3 =>
          have h1 : runNew br src s = (0, s3) := by
            simp only [runNew, if_neg hbr, if_neg hplm, hcsf, htl]
          have hd32 : s3.dirs = s2.dirs := by
            simpa using tmplLoop_dirs _ _ _ _ _ htl
          have hpref : ∀ q ∈ prefixesOf (branchDir br), q ∈ s3.dirs := by
            intro q hq
            rw [hd32]
            have h5 := csf_dirs_mono _ _ _ _ _ hcsf q
              (mkdirAll_of_mem_prefixes s _ q hq)
            simpa using h5
          have hmk2 : s3.mkdirAll (branchDir br) = s3 := mkdirAll_id _ _ hpref
          have hpl3 : s3.dirExists ["planning"] = true := by
            simp only [FS.dirExists, decide_eq_true_eq] at hpl ⊢
            rw [hd32]
            have h5 := csf_dirs_mono _ _ _ _ _ hcsf ["planning"]
              (mkdirAll_mem s _ _ hpl)
            simpa using h5
          have hplm2 : ¬ (¬ s3.dirExists ["planning"] = true) := by simp [hpl3]
          have hEF : (∃ w, copyLoop ("planning" :: splitSlash src) (branchDir br)
                ["planning"] files_to_copy w = .ok s2) ∧
              (s3.dirExists ("planning" :: splitSlash src) = true
                ∨ lastSeg ("planning" :: splitSlash src) ≠ "main") := by
            by_cases hsp : ¬ (s.mkdirAll (branchDir br)).dirExists
                ("planning" :: splitSlash src) = true
                ∧ lastSeg ("planning" :: splitSlash src) = "main"
            · have hcsf2 := hcsf
              unfold copy_source_files at hcsf2
              rw [if_pos hsp] at hcsf2
              cases hseed : seedLoop ("planning" :: splitSlash src) ["planning"]
                  files_to_copy ((s.mkdirAll (branchDir br)).mkdirAll
                    ("planning" :: splitSlash src)) with
              | error e =>
                rw [hseed] at hcsf2
                exact Except.noConfusion hcsf2
              | ok w =>
                rw [hseed] at hcsf2
                refine ⟨⟨w, hcsf2⟩, Or.inl ?_⟩
                have h5 : ("planning" :: splitSlash src)
                    ∈ ((s.mkdirAll (branchDir br)).mkdirAll
                        ("planning" :: splitSlash src)).dirs :=
                  mkdirAll_of_mem_prefixes _ _ _
                    (self_mem_prefixesOf _ (List.cons_ne_nil _ _))
                have h6 : w.dirs = ((s.mkdirAll (branchDir br)).mkdirAll
                    ("planning" :: splitSlash src)).dirs := by
                  simpa using seedLoop_dirs _ _ _ _ _ hseed
                have h7 : s2.dirs = w.dirs := by
                  simpa using copyLoop_dirs _ _ _ _ _ _ hcsf2
                simp only [FS.dirExists, decide_eq_true_eq]
                rw [hd32, h7, h6]
                exact h5
            · have hcsf2 := hcsf
              unfold copy_source_files at hcsf2
              rw [if_neg hsp] at hcsf2
              refine ⟨⟨_, hcsf2⟩, ?_⟩
              rcases not_and_or.mp hsp with h | h
              · left
                have h5 : (s.mkdirAll (branchDir br)).dirExists
                    ("planning" :: splitSlash src) = true := not_not.mp h
                simp only [FS.dirExists, decide_eq_true_eq] at h5 ⊢
                rw [hd32]
                have h6 := csf_dirs_mono _ _ _ _ _ hcsf _ h5
                simpa using h6
              · exact Or.inr h
          obtain ⟨⟨w, hrL⟩, hsdor⟩ := hEF
          have hskip2 : ¬ (¬ s3.dirExists ("planning" :: splitSlash src) = true
              ∧ lastSeg ("planning" :: splitSlash src) = "main") := by
            rintro ⟨ha', hb'⟩
            rcases hsdor with h | h
            · exact ha' h
            · exact h hb'
          by_cases hsdtd : ("planning" :: splitSlash src) = branchDir br
          · have hcl2 : copy_source_files ("planning" :: splitSlash src) (branchDir br)
                ["planning"] s3 = .ok s3 := by
              simp only [copy_source_files, if_neg hskip2,
                copyLoop_same _ _ _ files_to_copy s3 hsdtd]
            have htl2 : tmplLoop (branchDir br) ["planning"] new_project_templates s3
                = .ok s3 :=
              tmplLoop_idem _ _ _ s2 s3 htl (by decide) s3
                (fun g hg => rfl) (fun g hg => rfl)
            have h2 : runNew br src s3 = (0, s3) := by
              simp only [runNew, if_neg hbr, if_neg hplm2, hmk2, hcl2, htl2]
            have h3 : runNew br src ((runNew br src s).2) = (0, s3) := by
              rw [h1]
              exact h2
            exact ⟨by rw [h3], by rw [h3, h1], fun p => by rw [h3, h1]⟩
          · have hne : ∀ g ∈ files_to_copy,
                ("planning" :: splitSlash src) ++ [g] ≠ (branchDir br) ++ [g] :=
              fun g _ he => hsdtd (append_single_right_cancel he)
            have hgdiff : ∀ g ∈ files_to_copy, ∀ h ∈ new_project_templates, g ≠ h := by
              decide
            have hs3sp : ∀ g ∈ files_to_copy,
                s3.files (("planning" :: splitSlash src) ++ [g])
                  = s2.files (("planning" :: splitSlash src) ++ [g]) := by
              intro g hg
              have h5 := tmplLoop_files _ _ _ _ _ htl (("planning" :: splitSlash src) ++ [g])
                (fun h hh => by
                  rw [getLast_append_single]
                  intro he
                  exact hgdiff g hg h hh (Option.some_inj.mp he))
              simpa using h5
            have hs3tp : ∀ g ∈ files_to_copy,
                s3.files (["planning"] ++ ["templates", g])
                  = s2.files (["planning"] ++ ["templates", g]) := by
              intro g hg
              have h5 := tmplLoop_files _ _ _ _ _ htl (["planning"] ++ ["templates", g])
                (fun h hh => by
                  have h6 : (["planning"] : FPath) ++ ["templates", g]
                      = (["planning", "templates"] : FPath) ++ [g] := by simp
                  rw [h6, getLast_append_single]
                  intro he
                  exact hgdiff g hg h hh (Option.some_inj.mp he))
              simpa using h5
            have hs3tf : ∀ g ∈ files_to_copy,
                s3.files ((branchDir br) ++ [g]) = s2.files ((branchDir br) ++ [g]) := by
              intro g hg
              have h5 := tmplLoop_files _ _ _ _ _ htl ((branchDir br) ++ [g])
                (fun h hh => by
                  rw [getLast_append_single]
                  intro he
                  exact hgdiff g hg h hh (Option.some_inj.mp he))
              simpa using h5
            obtain ⟨t', hT', hT'f, hT'd⟩ := copyLoop_idem ("planning" :: splitSlash src)
              (branchDir br) ["planning"] files_to_copy w s2 hrL (by decide) hne s3
              hs3sp hs3tp hs3tf
            have hcl2 : copy_source_files ("planning" :: splitSlash src) (branchDir br)
                ["planning"] s3 = .ok t' := by
              simp only [copy_source_files, if_neg hskip2, hT']
            have htl2 : tmplLoop (branchDir br) ["planning"] new_project_templates t'
                = .ok t' :=
              tmplLoop_idem _ _ _ s2 s3 htl (by decide) t'
                (fun g hg => hT'f _) (fun g hg => hT'f _)
            have h2 : runNew br src s3 = (0, t') := by
              simp only [runNew, if_neg hbr, if_neg hplm2, hmk2, hcl2, htl2]
            have h3 : runNew br src ((runNew br src s).2) = (0, t') := by
              rw [h1]
              exact h2
            exact ⟨by rw [h3], by rw [h3, h1]; exact hT'd, fun p => by rw [h3, h1]; exact hT'f p⟩
    · exfalso
      simp [runNew, hbr, hpl] at h0

theorem c3_scaffold_idempotent_witness :
    (runNew "feature/x" "main" fsInit).1 = 0 ∧
    (runNew "feature/x" "main" (runNew "feature/x" "main" fsInit).2).1 = 0 ∧
    (runNew "feature/x" "main" (runNew "feature/x" "main" fsInit).2).2.files
        ["planning", "feature", "x", "feature.md"]
      = (runNew "feature/x" "main" fsInit).2.files
        ["planning", "feature", "x", "feature.md"] :=
  ⟨by decide, (c3_scaffold_idempotent "feature/x" "main" fsInit (by decide)).1,
   (c3_scaffold_idempotent "feature/x" "main" fsInit (by decide)).2.2 _⟩
